import Mathlib

/-!
Verification of the checklist-builder extraction-and-injection engine
(`Root/Chk_Lst/src/checklist_builder_v5.py`, `checklist_builder_v4f1.py`,
`checklist_builder_v4f_v1a.py`).

The Python sources are shallowly embedded below: sheets are lists of rows of
optional string cells, Python dicts are association lists with Python's
insertion-order update semantics, Python's stable `list.sort` is a stable
insertion sort, and the two regex-based template matchers are implemented
directly with their (deterministic) backtracking semantics spelled out.
-/

namespace KyaBaat

/-! ## Character and string utilities (Python `str.strip`, `str.lower`, …) -/

/-- ASCII whitespace, as recognised by Python's `str.strip` / regex `\s`
(restricted to the ASCII range in this embedding). -/
def isPyWs (c : Char) : Bool :=
  c.toNat = 32 || c.toNat = 9 || c.toNat = 10 || c.toNat = 13 || c.toNat = 11 || c.toNat = 12

/-- `[A-Za-z0-9]`, the character class of the sanitizer's regex. -/
def isAsciiAlnum (c : Char) : Bool :=
  (97 ≤ c.toNat && c.toNat ≤ 122) || (65 ≤ c.toNat && c.toNat ≤ 90) ||
    (48 ≤ c.toNat && c.toNat ≤ 57)

/-- ASCII digit test (Python `str.isdigit` on the slugs produced here). -/
def isAsciiDigit (c : Char) : Bool := 48 ≤ c.toNat && c.toNat ≤ 57

/-- ASCII lower-casing of one character (Python `str.lower` on the ASCII
strings manipulated by the builders). -/
def lowChar (c : Char) : Char :=
  if 65 ≤ c.toNat && c.toNat ≤ 90 then Char.ofNat (c.toNat + 32) else c

/-- Python `s.strip()` on a character list. -/
def pyStripL (l : List Char) : List Char :=
  ((l.dropWhile isPyWs).reverse.dropWhile isPyWs).reverse

/-- Python `s.rstrip()` on a character list. -/
def pyRStripL (l : List Char) : List Char :=
  (l.reverse.dropWhile isPyWs).reverse

/-- Python `s.strip()`. -/
def pyStrip (s : String) : String := ⟨pyStripL s.data⟩

/-- Python `s.lower()`. -/
def pyLower (s : String) : String := ⟨s.data.map lowChar⟩

/-- `norm` from `checklist_builder_v5.py`: `"" if v is None else str(v).strip()`.
A cell is `none` (pandas/openpyxl `None`) or a string. -/
def norm (v : Option String) : String :=
  match v with
  | none => ""
  | some s => pyStrip s

/-- `low` from `checklist_builder_v5.py`: `norm(v).lower()`. -/
def low (v : Option String) : String := pyLower (norm v)

/-- Python `int(s)` on a (string) cell: optional surrounding whitespace, an
optional sign, then a non-empty run of digits. Returns `none` where Python
raises `ValueError`. -/
def pyIntCore : List Char → Option Int
  | [] => none
  | c :: t =>
    if c = '-' then
      (if t ≠ [] ∧ t.all isAsciiDigit then
        some (-(Int.ofNat (t.foldl (fun a d => a * 10 + (d.toNat - 48)) 0)))
      else none)
    else if c = '+' then
      (if t ≠ [] ∧ t.all isAsciiDigit then
        some (Int.ofNat (t.foldl (fun a d => a * 10 + (d.toNat - 48)) 0))
      else none)
    else
      (if (c :: t).all isAsciiDigit then
        some (Int.ofNat ((c :: t).foldl (fun a d => a * 10 + (d.toNat - 48)) 0))
      else none)

/-- Python `int(s)` for a string. -/
def pyInt (s : String) : Option Int := pyIntCore (pyStripL s.data)

/-- `boolish` from `checklist_builder_v5.py`. -/
def boolish (v : Option String) (default : Bool) : Bool :=
  let s := low v
  if s ∈ ["y", "yes", "true", "1", "done", "complete", "completed"] then true
  else if s ∈ ["n", "no", "false", "0", ""] then false
  else default

/-! ## Python dicts as insertion-ordered association lists -/

/-- Python `d[k] = v`: replace in place if the key exists, else append. -/
def dset (d : List (String × String)) (k v : String) : List (String × String) :=
  if d.any (fun p => p.1 = k) then
    d.map (fun p => if p.1 = k then (k, v) else p)
  else d ++ [(k, v)]

/-- Python `d.get(k)` / `k in d`. -/
def dget (d : List (String × String)) (k : String) : Option String :=
  (d.find? (fun p => p.1 = k)).map (fun p => p.2)

/-- Python `d.get(k, dflt)`. -/
def dgetD (d : List (String × String)) (k dflt : String) : String :=
  (dget d k).getD dflt

/-- Python `d.update(src)`: assign every entry of `src` into `d` in order. -/
def dictUpdate (d src : List (String × String)) : List (String × String) :=
  src.foldl (fun a p => dset a p.1 p.2) d

/-! ## Header parsing (`checklist_builder_v5.py`) -/

/-- `HEADER_KEY_SYNONYMS` from `checklist_builder_v5.py` (in source order;
the synonym sets are given as lists, membership is all that is used). -/
def HEADER_KEY_SYNONYMS : List (String × List String) :=
  [("name", ["name", "sop name", "sopname", "sop_nm"]),
   ("id", ["id", "sop id", "sopid", "sop_id"]),
   ("entity", ["entity", "sop entity", "sopentity", "sop_entity"]),
   ("repo", ["repo", "repo path", "metarepo", "meta repo", "codespaces repo"]),
   ("webRoot", ["webroot", "web root", "publish", "publish target", "stage repo", "web repo"]),
   ("runLabel", ["runlabel", "run label"]),
   ("imgFolder", ["imgfolder", "img folder", "sopimgfolder", "image folder"]),
   ("templateTag", ["templatetag", "template tag", "tag"])]

/-- `canonical_header_key` from `checklist_builder_v5.py`. -/
def canonical_header_key (k : String) : Option String :=
  let lk := pyLower (pyStrip k)
  (HEADER_KEY_SYNONYMS.find? (fun p => lk ∈ p.2)).map (fun p => p.1)

/-- The loop of `read_header_key_value` detecting the Key/Value columns in
row 1: the *last* matching column index wins, defaulting to columns 0/1. -/
def detectKeyValIdx (r1 : List String) : Nat × Nat :=
  (r1.enum.foldl
    (fun st p =>
      let st1 := if pyLower p.2 ∈ ["key", "field", "header_key", "name"] then (p.1, st.2) else st
      if pyLower p.2 ∈ ["value", "val", "header_value"] then (st1.1, p.1) else st1)
    (0, 1))

/-- Cell access `r[i]` guarded by `i < len(r)`, then `norm`. -/
def cellAt (r : List (Option String)) (i : Nat) : String :=
  match r.get? i with
  | some v => norm v
  | none => ""

/-- The row loop of `read_header_key_value`: key/value pairs are read until a
streak of 5 blank keys. -/
def rhkvLoop : List (List (Option String)) → Nat → Nat → Nat →
    List (String × String) → List (String × String)
  | [], _, _, _, out => out
  | r :: rs, ik, iv, streak, out =>
    let key := cellAt r ik
    let val := cellAt r iv
    if key = "" then
      (if streak + 1 ≥ 5 then out else rhkvLoop rs ik iv (streak + 1) out)
    else rhkvLoop rs ik iv 0 (dset out key val)

/-- `read_header_key_value` from `checklist_builder_v5.py`. -/
def read_header_key_value (rows : List (List (Option String))) :
    List (String × String) :=
  match rows with
  | [] => []
  | r1 :: rest =>
    let idx := detectKeyValIdx (r1.map norm)
    rhkvLoop rest idx.1 idx.2 0 []

/-- Number of cells of a row resolving to a canonical header key (the `hits`
count of `read_header_row_values`). -/
def headerHits (r : List (Option String)) : Nat :=
  r.countP (fun c => (canonical_header_key (norm c)).isSome)

/-- The best-row scan of `read_header_row_values` over the first
`min 15 (len rows - 1)` rows: strict improvement updates, so the first row
attaining the maximum wins. -/
def scanBestBy (h : Nat → Nat) (w : Nat) : Option Nat × Nat :=
  (List.range w).foldl
    (fun st i => if h i > st.2 then (some i, h i) else st) (none, 0)

/-- `read_header_row_values` from `checklist_builder_v5.py`. -/
def read_header_row_values (rows : List (List (Option String))) :
    List (String × String) :=
  if rows.length < 2 then []
  else
    let h := fun i => headerHits (rows.getD i [])
    let st := scanBestBy h (min 15 (rows.length - 1))
    match st.1 with
    | none => []
    | some bi =>
      if st.2 < 3 then []
      else
        let fieldRow := (rows.getD bi []).map norm
        let valueRow := (rows.getD (bi + 1) []).map norm
        fieldRow.enum.foldl
          (fun out p =>
            match canonical_header_key p.2 with
            | none => out
            | some canon =>
              match valueRow.get? p.1 with
              | some v => if pyStrip v ≠ "" then dset out canon (pyStrip v) else out
              | none => out)
          []

/-- The `base` dict of `build_sopinfo` (documented defaults). -/
def sopBase : List (String × String) :=
  [("name", ""),
   ("id", ""),
   ("entity", ""),
   ("repo", "/workspaces/SOP_Build"),
   ("webRoot", "/SOP_Stage"),
   ("runLabel", ""),
   ("imgFolder", "../outputs/images/<SOP_ID>"),
   ("templateTag", "v8 â€“ injected")]

/-- One step of the `normalized` accumulation in `build_sopinfo`. -/
def sopNormStep (acc : List (String × String)) (p : String × String) :
    List (String × String) :=
  match canonical_header_key p.1 with
  | some ck => dset acc ck (pyStrip p.2)
  | none => if sopBase.any (fun q => q.1 = p.1) then dset acc p.1 (pyStrip p.2) else acc

/-- `build_sopinfo` from `checklist_builder_v5.py`. -/
def build_sopinfo (header_data : List (String × String)) : List (String × String) :=
  let normalized := header_data.foldl sopNormStep []
  sopBase.map (fun p =>
    match dget normalized p.1 with
    | some v => if v ≠ "" then (p.1, v) else p
    | none => p)

/-- The merge performed by `main` in `checklist_builder_v5.py`:
`header_data = {}` / `update(kv)` / `update(rv)`. -/
def mergeHeaderData (kv rv : List (String × String)) : List (String × String) :=
  dictUpdate (dictUpdate [] kv) rv

/-! ## Stable sort (Python's `list.sort(key=...)`)

Python's `list.sort` is a stable ascending sort. It is embedded as a stable
insertion sort: an element is inserted *after* every earlier element whose key
is `≤` its own, which is exactly the stable order. -/

/-- Stable insertion of `a` into the already-sorted list `l` of elements that
come *later* in the input: `a` goes before the first element whose key is at
least its own, so it precedes later elements with an equal key. -/
def sInsert (key : α → Int) (a : α) : List α → List α
  | [] => [a]
  | b :: l => if key a ≤ key b then a :: b :: l else b :: sInsert key a l

/-- Stable ascending sort by an integer key (Python `list.sort(key=...)`). -/
def pySort (key : α → Int) : List α → List α
  | [] => []
  | a :: l => sInsert key a (pySort key l)

/-! ## Steps parsing (`checklist_builder_v5.py`) -/

/-- `STEP_COL_SYNONYMS` from `checklist_builder_v5.py`. -/
def STEP_COL_SYNONYMS : List (String × List String) :=
  [("order", ["order", "step", "step_no", "step number", "seq", "sequence"]),
   ("id", ["id", "step_id", "code"]),
   ("title", ["title", "step_title", "name"]),
   ("command", ["command", "cmd", "procedure", "instructions"]),
   ("reminder", ["reminder", "hints", "hint", "tips", "tip"]),
   ("notes", ["notes", "run_notes", "comments"]),
   ("done", ["done", "status", "complete", "completed"])]

/-- `canon_step_col` from `checklist_builder_v5.py`. -/
def canon_step_col (name : String) : Option String :=
  let ln := pyLower (pyStrip name)
  (STEP_COL_SYNONYMS.find? (fun p => ln ∈ p.2)).map (fun p => p.1)

/-- The `hits` count of `find_steps_header_row` for one row. -/
def stepHits (r : List (Option String)) : Nat :=
  r.countP (fun c => (canon_step_col (norm c)).isSome)

/-- `find_steps_header_row` from `checklist_builder_v5.py`: scan the first
`min 30 (len rows)` rows, keep the first row attaining the maximal hit count,
require at least 3 hits. -/
def find_steps_header_row (rows : List (List (Option String))) : Option Nat :=
  let h := fun i => stepHits (rows.getD i [])
  let st := scanBestBy h (min 30 rows.length)
  match st.1 with
  | none => none
  | some bi => if st.2 < 3 then none else some bi

/-- One step record as built by `read_steps` in `checklist_builder_v5.py`. -/
structure StepV5 where
  id : String
  order : Int
  title : String
  command : String
  reminder : String
  notes : String
  done : Bool
  runs : List String
deriving DecidableEq

/-- The column map of `read_steps`: first column per canonical name wins. -/
def stepColMap (header : List String) : List (String × Nat) :=
  header.enum.foldl
    (fun m p =>
      match canon_step_col p.2 with
      | some c => if m.any (fun q => q.1 = c) then m else m ++ [(c, p.1)]
      | none => m)
    []

/-- The per-row field lookup `get` of `read_steps`. -/
def stepGet (colMap : List (String × Nat)) (r : List (Option String)) (col : String) : String :=
  match (colMap.find? (fun q => q.1 = col)).map (fun q => q.2) with
  | none => ""
  | some j =>
    match r.get? j with
    | some v => norm v
    | none => ""

/-- Build one `StepV5` from a data row (`read_steps` loop body);
`count` is `len(out)` at that point. -/
def mkStepV5 (colMap : List (String × Nat)) (r : List (Option String)) (count : Nat) : StepV5 :=
  let get := stepGet colMap r
  let orderRaw := get "order"
  let order : Int :=
    if orderRaw = "" then Int.ofNat (count + 1)
    else match pyInt orderRaw with
         | some n => n
         | none => Int.ofNat (count + 1)
  { id := if get "id" = "" then "Step" ++ toString order else get "id"
    order := order
    title := if get "title" = "" then "Step " ++ toString order else get "title"
    command := get "command"
    reminder := get "reminder"
    notes := get "notes"
    done := boolish (some (get "done")) false
    runs := [] }

/-- The data-row loop of `read_steps`: rows where every cell is blank count
towards a streak of 10 that terminates reading, other rows become steps. -/
def readStepsLoop (colMap : List (String × Nat)) :
    List (List (Option String)) → Nat → List StepV5 → List StepV5
  | [], _, out => out
  | r :: rs, streak, out =>
    if r.all (fun x => norm x = "") then
      (if streak + 1 ≥ 10 then out else readStepsLoop colMap rs (streak + 1) out)
    else
      readStepsLoop colMap rs 0 (out ++ [mkStepV5 colMap r out.length])

/-- The steps of `read_steps` before the final sort. -/
def readStepsPre (rows : List (List (Option String))) : List StepV5 :=
  match rows with
  | [] => []
  | _ :: _ =>
    match find_steps_header_row rows with
    | none => []
    | some hdr =>
      let header := (rows.getD hdr []).map norm
      readStepsLoop (stepColMap header) (rows.drop (hdr + 1)) 0 []

/-- `read_steps` from `checklist_builder_v5.py` (`out.sort(key=...)` last). -/
def read_steps (rows : List (List (Option String))) : List StepV5 :=
  pySort (fun s => s.order) (readStepsPre rows)

/-! ## Identifier sanitizer and uniqueness (`checklist_builder_v4f1.py`) -/

/-- `re.sub(r"[^A-Za-z0-9]+", "_", s)`: each maximal run of non-alphanumeric
characters becomes a single underscore. -/
def collapseRuns : List Char → List Char
  | [] => []
  | [c] => if isAsciiAlnum c then [c] else ['_']
  | c :: d :: t =>
    if isAsciiAlnum c then c :: collapseRuns (d :: t)
    else if isAsciiAlnum d then '_' :: collapseRuns (d :: t)
    else collapseRuns (d :: t)

/-- Python `s.strip("_")`. -/
def stripUnderscores (l : List Char) : List Char :=
  ((l.dropWhile (fun c => c = '_')).reverse.dropWhile (fun c => c = '_')).reverse

/-- `slugify_step_id` from `checklist_builder_v4f1.py`, on character lists. -/
def slugifyL (s : List Char) : List Char :=
  let s1 := pyStripL s
  if s1 = [] then []
  else
    let s2 := stripUnderscores (collapseRuns s1)
    let s3 := match s2 with
      | [] => s2
      | c :: _ => if isAsciiDigit c then 's' :: 't' :: 'e' :: 'p' :: '_' :: s2 else s2
    s3.map lowChar

/-- `slugify_step_id` from `checklist_builder_v4f1.py`. -/
def slugify_step_id (s : String) : String := ⟨slugifyL s.data⟩

/-- Decimal digit character (Python `str(int)` digits). -/
def decDigit (d : Nat) : Char := Char.ofNat (48 + d)

/-- Decimal rendering of a natural number, MSB first, with explicit fuel
(`fuel ≥ n` always suffices). Models Python `str(i)` for `i ≥ 0`. -/
def natToDecAux : Nat → Nat → List Char → List Char
  | 0, _, acc => acc
  | _ + 1, 0, acc => acc
  | f + 1, n + 1, acc => natToDecAux f ((n + 1) / 10) (decDigit ((n + 1) % 10) :: acc)

/-- Python `str(i)` for a natural number. -/
def natToDec (n : Nat) : List Char :=
  if n = 0 then ['0'] else natToDecAux n n []

/-- The probe string `f"{candidate}_{i}"` of `ensure_unique_id`. -/
def probeCand (candidate : String) (i : Nat) : String :=
  candidate ++ "_" ++ ⟨natToDec i⟩

/-- The `while f"{candidate}_{i}" in used: i += 1` loop of `ensure_unique_id`,
with fuel (taking `fuel = used.length + 1` always finds a free name). -/
def probeSuffix : Nat → Nat → String → List String → String
  | 0, i, candidate, _ => probeCand candidate i
  | f + 1, i, candidate, used =>
    if probeCand candidate i ∈ used then probeSuffix f (i + 1) candidate used
    else probeCand candidate i

/-- `ensure_unique_id` from `checklist_builder_v4f1.py`: returns the issued
identifier and the updated `used` set (modelled as a list). -/
def ensure_unique_id (candidate : String) (used : List String) : String × List String :=
  if candidate ∈ used then
    let final := probeSuffix (used.length + 1) 2 candidate used
    (final, final :: used)
  else (candidate, candidate :: used)

/-! ## Excel step loading (`checklist_builder_v4f1.py`)

A pandas `DataFrame` is embedded as its column labels plus its data rows
(cells are `none` for NaN). -/

/-- Last index of a column satisfying `p` (the python source builds a dict
keyed by stripped label, so a later duplicate label shadows an earlier one). -/
def lastColIdx (cols : List String) (p : String → Bool) : Option Nat :=
  (cols.enum.filter (fun q => p q.2)).getLast?.map (fun q => q.1)

/-- `col_lookup` from `checklist_builder_v4f1.py`: exact stripped match for
any candidate first, then case-insensitive. -/
def col_lookup (cols : List String) (candidates : List String) : Option Nat :=
  match candidates.findSome? (fun name => lastColIdx cols (fun c => pyStrip c = name)) with
  | some i => some i
  | none =>
    candidates.findSome? (fun name =>
      lastColIdx cols (fun c => pyLower (pyStrip c) = pyLower name))

/-- One step record as built by `load_steps_from_excel` in
`checklist_builder_v4f1.py`. -/
structure StepRec where
  id : String
  order : Int
  title : String
  command : String
  reminder : String
  notes : String
  runs : List String
deriving DecidableEq

/-- Cell of row `r` at optional column index `c` (`row.get(col)`,
NaN as `none`). -/
def dfCell (r : List (Option String)) : Option Nat → Option String
  | none => none
  | some j => (r.get? j).getD none

/-- The resolved column indices of `load_steps_from_excel`. -/
structure V4f1Cols where
  order : Option Nat
  step_id : Option Nat
  title : Option Nat
  cmd : Option Nat
  input : Option Nat
  hints : Option Nat
  program : Option Nat
  variants : Option Nat
  phase : Option Nat
  out_file : Option Nat
  out_fold : Option Nat

/-- `col_lookup` calls of `load_steps_from_excel`, in source order. -/
def v4f1Cols (cols : List String) : V4f1Cols :=
  { order := col_lookup cols ["StepOrder", "Order", "Seq"]
    step_id := col_lookup cols ["StepID", "Step Id", "ID"]
    title := col_lookup cols ["Title", "StepTitle"]
    cmd := col_lookup cols ["Command", "Cmd"]
    input := col_lookup cols ["InputNeeded", "Inputs"]
    hints := col_lookup cols ["Hints", "Hint"]
    program := col_lookup cols ["Program"]
    variants := col_lookup cols ["Variants"]
    phase := col_lookup cols ["Phase"]
    out_file := col_lookup cols ["ExpectedOutputFile", "OutputFile", "Expected Output File"]
    out_fold := col_lookup cols ["ExpectedOutputFolder", "OutputFolder", "Expected Output Folder"] }

/-- Python `"sep".join(parts)`. -/
def pyJoin (sep : String) : List String → String
  | [] => ""
  | [p] => p
  | p :: q :: t => p ++ sep ++ pyJoin sep (q :: t)

/-- One row of the `load_steps_from_excel` loop: builds the step and updates
the `used_ids` set. `idx` is the DataFrame index of the row. -/
def v4f1Row (cs : V4f1Cols) (idx : Nat) (r : List (Option String))
    (used : List String) : StepRec × List String :=
  let orderVal : Int :=
    match dfCell r cs.order with
    | some v => match pyInt v with
                | some n => n
                | none => Int.ofNat (idx + 1)
    | none => Int.ofNat (idx + 1)
  let rawStepId : String :=
    match dfCell r cs.step_id with
    | some v => pyStrip v
    | none => ""
  let safe0 := if slugify_step_id rawStepId = "" then "step_" ++ toString orderVal
               else slugify_step_id rawStepId
  let issued := ensure_unique_id safe0 used
  let titleVal : String :=
    match dfCell r cs.title with
    | some v => pyStrip v
    | none => if pyStrip rawStepId = "" then issued.1 else pyStrip rawStepId
  let cmdParts : List String :=
    (match dfCell r cs.cmd with
     | some v => [⟨pyRStripL v.data⟩]
     | none => []) ++
    (match dfCell r cs.program with
     | some v => ["[Program] " ++ v]
     | none => []) ++
    (match dfCell r cs.variants with
     | some v => ["[Variants] " ++ v]
     | none => [])
  let commandVal := pyStrip (pyJoin "\n\n" cmdParts)
  let remParts : List String :=
    (match dfCell r cs.input with
     | some v => ["Inputs: " ++ v]
     | none => []) ++
    (match dfCell r cs.out_file with
     | some v => ["OutFile: " ++ v]
     | none => []) ++
    (match dfCell r cs.out_fold with
     | some v => ["OutFolder: " ++ v]
     | none => []) ++
    (match dfCell r cs.hints with
     | some v => ["Hints: " ++ v]
     | none => []) ++
    (match dfCell r cs.phase with
     | some v => ["Phase: " ++ v]
     | none => [])
  let reminderVal := pyJoin " | " (remParts.filter (fun p => pyStrip p ≠ ""))
  ({ id := issued.1
     order := orderVal
     title := titleVal
     command := commandVal
     reminder := reminderVal
     notes := ""
     runs := [] }, issued.2)

/-- The row loop of `load_steps_from_excel`: fully-NaN rows are skipped but
keep their DataFrame index. -/
def v4f1Loop (cs : V4f1Cols) :
    List (Nat × List (Option String)) → List String → List StepRec → List StepRec
  | [], _, out => out
  | (idx, r) :: rs, used, out =>
    if r.all (fun x => x.isNone) then v4f1Loop cs rs used out
    else
      let built := v4f1Row cs idx r used
      v4f1Loop cs rs built.2 (out ++ [built.1])

/-- `load_steps_from_excel` from `checklist_builder_v4f1.py` before the final
sort, for a sheet with column labels `cols` and data rows `rows`. -/
def load_steps_pre (cols : List String) (rows : List (List (Option String))) :
    List StepRec :=
  v4f1Loop (v4f1Cols cols) rows.enum [] []

/-- `load_steps_from_excel` from `checklist_builder_v4f1.py`
(`steps.sort(key=lambda s: s.get("order", 0))` last). -/
def load_steps_from_excel (cols : List String) (rows : List (List (Option String))) :
    List StepRec :=
  pySort (fun s => s.order) (load_steps_pre cols rows)

/-! ## Template injection

`apply_template` / `_inject_steps` from `checklist_builder_v4f_v1a.py` and
`inject` from `checklist_builder_v5.py`. Template text is a character list.
The two regex patterns used by the sources are deterministic (their lazy and
greedy parts admit a single successful parse at each starting position), so
they are embedded as direct scanning functions with leftmost-match semantics.
-/

/-- The placeholder token for a key: `"{{" + key + "}}"`. -/
def markerL (n : String) : List Char :=
  '\x7b' :: '\x7b' :: n.data ++ ['\x7d', '\x7d']

/-- Python `pat in s` (substring containment). -/
def containsSub (s pat : List Char) : Bool :=
  pat.isPrefixOf s ||
    (match s with
     | [] => false
     | _ :: t => containsSub t pat)

/-- Python `s.replace(pat, rep)`: replace every occurrence left to right,
non-overlapping (for empty `pat`, Python inserts `rep` at every position). -/
def replaceAll : List Char → List Char → List Char → List Char
  | [], [], rep => rep
  | c :: t, [], rep => rep ++ c :: replaceAll t [] rep
  | [], _ :: _, _ => []
  | c :: t, p :: ps, rep =>
    if (p :: ps).isPrefixOf (c :: t) then
      rep ++ replaceAll ((c :: t).drop (p :: ps).length) (p :: ps) rep
    else c :: replaceAll t (p :: ps) rep
termination_by s pat _ => s.length
decreasing_by
  · simp
  · rename_i h
    have hl : (p :: ps).length ≤ (c :: t).length :=
      (List.isPrefixOf_iff_prefix.mp h).length_le
    simp only [List.length_drop]
    simp only [List.length_cons] at hl ⊢
    omega
  · simp

/-- `\w` (ASCII): letters, digits, underscore. -/
def isWordChar (c : Char) : Bool := isAsciiAlnum c || c = '_'

/-- One token of a parsed `re.sub` replacement template. -/
inductive ReplTok where
  | lit (c : Char)
  | grp (n : Nat)
deriving DecidableEq

/-- Octal digit test. -/
def isOctDigit (c : Char) : Bool := '0' ≤ c && c ≤ '7'

/-- One escape of a `re.sub` replacement template (the characters after a
backslash): the emitted tokens and the remaining input, or a fatal error.
Mirrors CPython `sre_parse.parse_template` for a pattern with 3 groups. -/
def parseEscStep (rest : List Char) : Except String (List ReplTok × List Char) :=
  match rest with
  | [] => .error "bad escape (end of pattern)"
  | c :: r =>
    if c = '\\' then .ok ([.lit '\\'], r)
    else if c = 'a' then .ok ([.lit '\x07'], r)
    else if c = 'b' then .ok ([.lit '\x08'], r)
    else if c = 'f' then .ok ([.lit '\x0c'], r)
    else if c = 'n' then .ok ([.lit '\n'], r)
    else if c = 'r' then .ok ([.lit '\x0d'], r)
    else if c = 't' then .ok ([.lit '\t'], r)
    else if c = 'v' then .ok ([.lit '\x0b'], r)
    else if c.isAlpha then .error "bad escape"
    else if c = '0' then
      match r with
      | d2 :: r2 =>
        if isOctDigit d2 then
          match r2 with
          | d3 :: r3 =>
            if isOctDigit d3 then
              .ok ([.lit (Char.ofNat (8 * (d2.toNat - 48) + (d3.toNat - 48)))], r3)
            else .ok ([.lit (Char.ofNat (d2.toNat - 48))], r2)
          | [] => .ok ([.lit (Char.ofNat (d2.toNat - 48))], r2)
        else .ok ([.lit '\x00'], r)
      | [] => .ok ([.lit '\x00'], r)
    else if isAsciiDigit c then
      match r with
      | d2 :: r2 =>
        if isAsciiDigit d2 then
          (match r2 with
           | d3 :: r3 =>
             if isOctDigit c ∧ isOctDigit d2 ∧ isOctDigit d3 then
               let v := 64 * (c.toNat - 48) + 8 * (d2.toNat - 48) + (d3.toNat - 48)
               if v > 255 then .error "octal escape value outside of range"
               else .ok ([.lit (Char.ofNat v)], r3)
             else .error "invalid group reference"
           | [] => .error "invalid group reference")
        else
          let g := c.toNat - 48
          if g ≤ 3 then .ok ([.grp g], r)
          else .error "invalid group reference"
      | [] =>
        let g := c.toNat - 48
        if g ≤ 3 then .ok ([.grp g], r)
        else .error "invalid group reference"
    else .ok ([.lit '\\', .lit c], r)

/-- Parse a `re.sub` replacement template with explicit fuel (every step
consumes at least one character, so fuel = length suffices). The template is
parsed eagerly, before any match is attempted. -/
def parseReplToksF : Nat → List Char → Except String (List ReplTok)
  | _, [] => .ok []
  | 0, _ :: _ => .error "out of fuel"
  | f + 1, c :: rest =>
    if c = '\\' then
      match parseEscStep rest with
      | .error e => .error e
      | .ok (toks, r) => (parseReplToksF f r).map (fun out => toks ++ out)
    else (parseReplToksF f rest).map (fun out => .lit c :: out)

def parseReplToks (t : List Char) : Except String (List ReplTok) :=
  parseReplToksF t.length t

/-- Expand a parsed replacement template against concrete group captures. -/
def expandToks (toks : List ReplTok) (g1 g2 g3 : List Char) : List Char :=
  toks.flatMap (fun t =>
    match t with
    | .lit c => [c]
    | .grp 1 => g1
    | .grp 2 => g2
    | .grp 3 => g3
    | .grp _ => [])

/-- Case-insensitive prefix test (`pat` is given lower-cased). -/
def ciPrefix (pat s : List Char) : Bool :=
  decide ((s.take pat.length).map lowChar = pat)

/-- Leftmost case-insensitive split: `some (before, matched, after)` where
`matched` is the original text whose lower-casing equals `pat`. -/
def splitCI (pat : List Char) : List Char → Option (List Char × List Char × List Char)
  | [] => if pat = [] then some ([], [], []) else none
  | c :: t =>
    if ciPrefix pat (c :: t) then some ([], (c :: t).take pat.length, (c :: t).drop pat.length)
    else
      match splitCI pat t with
      | some (b, m, a) => some (c :: b, m, a)
      | none => none

/-- The leftmost match of `(<title>)(.*?)(</title>)` with `re.I | re.S`:
`some (before, g1, g2, g3, after)`. -/
def findTitleTag (s : List Char) :
    Option (List Char × List Char × List Char × List Char × List Char) :=
  match splitCI "<title>".data s with
  | none => none
  | some (b, m1, r) =>
    match splitCI "</title>".data r with
    | none => none
    | some (mid, m2, after) => some (b, m1, mid, m2, after)

/-- Whether `id="headerTitle"` (case-insensitively) occurs in `run` preceded
by a word boundary; `prev` is the character just before `run`. -/
def hasBoundedId : Char → List Char → Bool
  | _, [] => false
  | prev, c :: t =>
    (!isWordChar prev && ciPrefix "id=\"headertitle\"".data (c :: t)) || hasBoundedId c t

/-- The leftmost match of
`(<div[^>]*\bid="headerTitle"[^>]*>)(.*?)(</div>)` with `re.I | re.S`.
Both `[^>]*` stop at the first `>` after `<div`, so group 1 is forced to be
the text from `<div` up to and including that `>`. -/
def findDivHeader : List Char →
    Option (List Char × List Char × List Char × List Char × List Char)
  | [] => none
  | c :: t =>
    let here :
        Option (List Char × List Char × List Char × List Char) :=
      if ciPrefix "<div".data (c :: t) then
        let m1h := (c :: t).take 4
        let run := ((c :: t).drop 4).takeWhile (fun x => x ≠ '>')
        match ((c :: t).drop 4).drop run.length with
        | '>' :: after1 =>
          if hasBoundedId 'v' run then
            match splitCI "</div>".data after1 with
            | some (mid, m2, after2) => some (m1h ++ run ++ ['>'], mid, m2, after2)
            | none => none
          else none
        | _ => none
      else none
    match here with
    | some (m1, mid, m2, after) => some ([], m1, mid, m2, after)
    | none =>
      match findDivHeader t with
      | some (b, m1, mid, m2, after) => some (c :: b, m1, mid, m2, after)
      | none => none

/-- `\s*;` at the head of `s`: the whitespace run and the rest after `;`. -/
def closeAt (s : List Char) : Option (List Char × List Char) :=
  let w := s.takeWhile isPyWs
  match s.dropWhile isPyWs with
  | ';' :: r => some (w, r)
  | _ => none

/-- The lazy region scan for `X[\s\S]*?X'` followed by `\s*;`: the region ends
at the first closing character that is followed by `\s*;`. Returns
`(inside, ws, rest-after-semicolon)`. -/
def findCloseC (closeC : Char) : List Char → Option (List Char × List Char × List Char)
  | [] => none
  | c :: t =>
    if c = closeC then
      match closeAt t with
      | some (w, r) => some ([], w, r)
      | none =>
        match findCloseC closeC t with
        | some (ins, w, r) => some (c :: ins, w, r)
        | none => none
    else
      match findCloseC closeC t with
      | some (ins, w, r) => some (c :: ins, w, r)
      | none => none

/-- Try `let\s+NAME\s*=\s*` followed by the opening character at the head of
`s`. Returns the prefix group and the rest after the opening character. -/
def matchAssignAt (name : List Char) (openC : Char) (s : List Char) :
    Option (List Char × List Char) :=
  match s with
  | 'l' :: 'e' :: 't' :: r =>
    let w1 := r.takeWhile isPyWs
    let r1 := r.dropWhile isPyWs
    if w1 = [] then none
    else if name.isPrefixOf r1 then
      let r2 := r1.drop name.length
      let w2 := r2.takeWhile isPyWs
      let r3 := r2.dropWhile isPyWs
      match r3 with
      | '=' :: r4 =>
        let w3 := r4.takeWhile isPyWs
        let r5 := r4.dropWhile isPyWs
        match r5 with
        | c :: r6 =>
          if c = openC then some ('l' :: 'e' :: 't' :: (w1 ++ name ++ w2 ++ '=' :: w3), r6)
          else none
        | [] => none
      | _ => none
    else none
  | _ => none

/-- Leftmost search for `let NAME = OPEN …lazy… CLOSE \s* ;`; when `useB` is
set a regex `\b` must hold before `let` (`prev` is the previous character).
Returns `(before, prefix-group, inside, ws, rest-after-semicolon)`. -/
def searchAssignAux (name : List Char) (openC closeC : Char) (useB : Bool) :
    Option Char → List Char →
    Option (List Char × List Char × List Char × List Char × List Char)
  | _, [] => none
  | prev, c :: t =>
    let bOk : Bool := !useB ||
      (match prev with
       | none => true
       | some p => !isWordChar p)
    let here : Option (List Char × List Char × List Char × List Char) :=
      if bOk then
        match matchAssignAt name openC (c :: t) with
        | some (g1, r) =>
          match findCloseC closeC r with
          | some (ins, w, rest) => some (g1, ins, w, rest)
          | none => none
        | none => none
      else none
    match here with
    | some (g1, ins, w, rest) => some ([], g1, ins, w, rest)
    | none =>
      match searchAssignAux name openC closeC useB (some c) t with
      | some (b, g1, ins, w, rest) => some (c :: b, g1, ins, w, rest)
      | none => none

/-- The search of `_inject_steps` in `checklist_builder_v4f_v1a.py` for
`(let\s+steps\s*=\s*)(\[[\s\S]*?\])(\s*;)` (no word boundary). -/
def searchStepsV4f (html : List Char) :
    Option (List Char × List Char × List Char × List Char × List Char) :=
  searchAssignAux "steps".data '[' ']' false none html

/-- `_inject_steps` from `checklist_builder_v4f_v1a.py`. -/
def injectSteps_v4f (html steps_json : List Char) : Except String (List Char) :=
  if containsSub html (markerL "STEPS_JSON") then
    .ok (replaceAll html (markerL "STEPS_JSON") steps_json)
  else
    match searchStepsV4f html with
    | some (b, g1, ins, w, rest) =>
      match parseReplToks ('\\' :: '1' :: steps_json ++ ['\\', '3']) with
      | .error e => .error e
      | .ok toks =>
        .ok (b ++ expandToks toks g1 ('[' :: ins ++ [']']) (w ++ [';']) ++ rest)
    | none =>
      .error "Template has no STEPS_JSON placeholder and no let steps block to replace."

/-- `_replace_or_patch_title` from `checklist_builder_v4f_v1a.py`. A bad
escape in the replacement text is fatal even when the tag is absent, because
`re.sub` parses its replacement template eagerly. -/
def replaceOrPatchTitle (html title : List Char) : Except String (List Char) :=
  if containsSub html (markerL "APP_TITLE") then
    .ok (replaceAll html (markerL "APP_TITLE") title)
  else
    match parseReplToks ('\\' :: '1' :: title ++ ['\\', '3']) with
    | .error e => .error e
    | .ok toks =>
      match findTitleTag html with
      | none => .ok html
      | some (b, m1, mid, m2, a) => .ok (b ++ expandToks toks m1 mid m2 ++ a)

/-- `_replace_or_patch_header_title` from `checklist_builder_v4f_v1a.py`. -/
def replaceOrPatchHeaderTitle (html visible : List Char) : Except String (List Char) :=
  if containsSub html (markerL "APP_TITLE_VISIBLE") then
    .ok (replaceAll html (markerL "APP_TITLE_VISIBLE") visible)
  else
    match parseReplToks ('\\' :: '1' :: visible ++ ['\\', '3']) with
    | .error e => .error e
    | .ok toks =>
      match findDivHeader html with
      | none => .ok html
      | some (b, m1, mid, m2, a) => .ok (b ++ expandToks toks m1 mid m2 ++ a)

/-- `apply_template` from `checklist_builder_v4f_v1a.py` (the pure part:
read and write of the files are the caller's I/O). On error no output text
exists. -/
def apply_template_v4f (template steps_json : List Char)
    (meta : List (String × String)) : Except String (List Char) :=
  match injectSteps_v4f template steps_json with
  | .error e => .error e
  | .ok h1 =>
    match replaceOrPatchTitle h1 (dgetD meta "APP_TITLE" "Checklist").data with
    | .error e => .error e
    | .ok h2 =>
      match replaceOrPatchHeaderTitle h2
          (dgetD meta "APP_TITLE_VISIBLE" (dgetD meta "APP_TITLE" "Checklist")).data with
      | .error e => .error e
      | .ok h3 =>
        .ok (meta.foldl
          (fun h p =>
            if containsSub h (markerL p.1) then replaceAll h (markerL p.1) p.2.data else h)
          h3)

/-- The `SOPINFO_RE` search of `checklist_builder_v5.py`:
`(?P<prefix>\blet\s+sopInfo\s*=\s*)\{.*?\}\s*;` with `re.DOTALL`. -/
def searchSopInfoV5 (html : List Char) :
    Option (List Char × List Char × List Char × List Char × List Char) :=
  searchAssignAux "sopInfo".data '{' '}' true none html

/-- The `STEPS_RE` search of `checklist_builder_v5.py`:
`(?P<prefix>\blet\s+steps\s*=\s*)\[\s*.*?\s*\]\s*;` with `re.DOTALL`. -/
def searchStepsV5 (html : List Char) :
    Option (List Char × List Char × List Char × List Char × List Char) :=
  searchAssignAux "steps".data '[' ']' true none html

/-- `inject` from `checklist_builder_v5.py`, over the serialized
`sop_js`/`steps_js` text (`json_for_js` output). The replacement is a
function of the match, so no template-escape processing occurs, and each
substitution keeps the prefix group and appends `;`. -/
def inject_v5 (template sopJs stepsJs : List Char) : Except String (List Char) :=
  if (searchSopInfoV5 template).isNone then
    .error "Template missing sopInfo assignment"
  else if (searchStepsV5 template).isNone then
    .error "Template missing steps assignment"
  else
    let t1 :=
      match searchSopInfoV5 template with
      | some (b, g1, _, _, rest) => b ++ g1 ++ sopJs ++ ';' :: rest
      | none => template
    let t2 :=
      match searchStepsV5 t1 with
      | some (b, g1, _, _, rest) => b ++ g1 ++ stepsJs ++ ';' :: rest
      | none => t1
    .ok t2

/-! ## Specification-side helpers

Derived notions used to state the claims: which canonical key a raw header
key writes to, the last such write, marker-structured templates, and the
match attempt of the steps-assignment pattern at one position. -/

/-- The key of `normalized` that an input entry with raw key `k` writes to in
`build_sopinfo` (if any): its canonical key, or `k` itself when `k` is
literally a key of the default table. -/
def sopNormTarget (k : String) : Option String :=
  match canonical_header_key k with
  | some ck => some ck
  | none => if sopBase.any (fun q => q.1 = k) then some k else none

/-- The value of the last entry of `hd` writing to canonical key `k`
(later entries of a Python dict iteration overwrite earlier ones). -/
def lastWrite : List (String × String) → String → Option String
  | [], _ => none
  | p :: l, k =>
    match lastWrite l k with
    | some v => some v
    | none => if sopNormTarget p.1 = some k then some (pyStrip p.2) else none

/-- Whether the steps-assignment pattern of `_inject_steps` matches starting
exactly at the head of `s`. -/
def stepsAttemptAt (s : List Char) : Bool :=
  match matchAssignAt "steps".data '[' s with
  | some (_, r) => (findCloseC ']' r).isSome
  | none => false

/-- A template block: literal text or a `"{{name}}"` placeholder. -/
inductive Blk where
  | txt (s : List Char)
  | hole (n : String)
deriving DecidableEq

/-- Concatenate a block list into template text. -/
def renderB : List Blk → List Char
  | [] => []
  | .txt s :: bs => s ++ renderB bs
  | .hole n :: bs => markerL n ++ renderB bs

/-- Replace every `hole n` block by literal text `rep`. -/
def holeSubst (n : String) (rep : List Char) (b : Blk) : Blk :=
  match b with
  | .hole m => if m = n then .txt rep else b
  | .txt _ => b

/-- No curly brace among the characters. -/
def braceFreeL (l : List Char) : Bool :=
  l.all (fun c => c ≠ '\x7b' && c ≠ '\x7d')

/-- Well-formed block: brace-free text, or a non-empty brace-free name. -/
def blkWf : Blk → Bool
  | .txt s => braceFreeL s
  | .hole n => braceFreeL n.data && !n.data.isEmpty

/-- Characters that `collapseRuns` can emit: alphanumeric or underscore. -/
def slugChar (c : Char) : Bool := isAsciiAlnum c || c = '_'

/-- Characters of a finished slug: lower-case letter, digit, or underscore. -/
def lowSlugChar (c : Char) : Bool :=
  (97 ≤ c.toNat && c.toNat ≤ 122) || (48 ≤ c.toNat && c.toNat ≤ 57) || c = '_'

/-- Value of a decimal digit string (used to invert `natToDec`). -/
def decVal (l : List Char) : Nat :=
  l.foldl (fun a c => a * 10 + (c.toNat - 48)) 0

/-- The value of the last entry of `d` whose key is exactly `k`. -/
def dgetLast : List (String × String) → String → Option String
  | [], _ => none
  | p :: l, k =>
    match dgetLast l k with
    | some v => some v
    | none => if p.1 = k then some p.2 else none

/-! # Lemmas -/

/-! ## Dict lemmas -/

theorem find?_map_keyfix (g : String × String → String × String)
    (hg : ∀ p, (g p).1 = p.1) (l : List (String × String)) (k : String) :
    (l.map g).find? (fun p => p.1 = k) = (l.find? (fun p => p.1 = k)).map g := by
  induction l with
  | nil => simp
  | cons p l ih =>
    simp only [List.map_cons, List.find?]
    by_cases hp : p.1 = k
    · simp [hg, hp]
    · simp only [hg, show (decide (p.1 = k) = false) by simpa using hp]
      exact ih

theorem dget_dset_self (d : List (String × String)) (k v : String) :
    dget (dset d k v) k = some v := by
  unfold dset
  by_cases h : d.any (fun p => p.1 = k)
  · simp only [h, if_true]
    set g : String × String → String × String :=
      fun p => if p.1 = k then (k, v) else p with hgdef
    have hg : ∀ p, (g p).1 = p.1 := by
      intro p
      simp only [hgdef]
      by_cases hp : p.1 = k <;> simp [hp]
    unfold dget
    rw [find?_map_keyfix g hg]
    have hex : ∃ x ∈ d, x.1 = k := by
      have := List.any_eq_true.mp h
      simpa using this
    cases hq : d.find? (fun p => p.1 = k) with
    | none =>
      rcases hex with ⟨x, hx, hxk⟩
      have := List.find?_eq_none.mp hq x hx
      simp [hxk] at this
    | some q =>
      have hq1 : q.1 = k := by simpa using List.find?_some hq
      simp [hgdef, hq1]
  · rw [if_neg (by simpa using h)]
    unfold dget
    rw [List.find?_append]
    have hnone : d.find? (fun p => p.1 = k) = none := by
      rw [List.find?_eq_none]
      intro x hx
      intro hxk
      have : d.any (fun p => p.1 = k) := List.any_eq_true.mpr ⟨x, hx, hxk⟩
      exact h this
    simp [hnone]

theorem dget_dset_other (d : List (String × String)) (k v k' : String) (hne : k' ≠ k) :
    dget (dset d k v) k' = dget d k' := by
  unfold dset
  by_cases h : d.any (fun p => p.1 = k)
  · simp only [h, if_true]
    set g : String × String → String × String :=
      fun p => if p.1 = k then (k, v) else p with hgdef
    have hg : ∀ p, (g p).1 = p.1 := by
      intro p
      simp only [hgdef]
      by_cases hp : p.1 = k <;> simp [hp]
    unfold dget
    rw [find?_map_keyfix g hg]
    cases hq : d.find? (fun p => p.1 = k') with
    | none => simp
    | some q =>
      have hq1 : q.1 = k' := by simpa using List.find?_some hq
      have : g q = q := by
        simp only [hgdef]
        rw [if_neg]
        rw [hq1]
        exact hne
      simp [this]
  · rw [if_neg (by simpa using h)]
    unfold dget
    rw [List.find?_append]
    cases hq : d.find? (fun p => p.1 = k') with
    | none =>
      simp only [Option.or_none, Option.none_or]
      simp only [List.find?]
      simp [show (decide (k = k') = false) by simpa using fun hh => hne hh.symm,
        List.find?]
    | some q => simp

/-- `sopNormStep` rewritten through `sopNormTarget`. -/
theorem sopNormStep_eq (acc : List (String × String)) (p : String × String) :
    sopNormStep acc p =
      match sopNormTarget p.1 with
      | some t => dset acc t (pyStrip p.2)
      | none => acc := by
  unfold sopNormStep sopNormTarget
  cases canonical_header_key p.1 with
  | none =>
    by_cases h : sopBase.any (fun q => q.1 = p.1) <;> simp [h]
  | some ck => simp

/-- The `normalized` dict of `build_sopinfo`: looking up `k` yields the last
write to `k`, falling back to the accumulator. -/
theorem normFold (l : List (String × String)) :
    ∀ (acc : List (String × String)) (k : String),
      dget (l.foldl sopNormStep acc) k =
        match lastWrite l k with
        | some v => some v
        | none => dget acc k := by
  induction l with
  | nil => intro acc k; simp [lastWrite]
  | cons p l ih =>
    intro acc k
    simp only [List.foldl_cons, lastWrite]
    rw [ih]
    cases hlw : lastWrite l k with
    | some v => simp
    | none =>
      simp only
      rw [sopNormStep_eq]
      cases ht : sopNormTarget p.1 with
      | none =>
        simp only [ht]
        have : (sopNormTarget p.1 = some k) = False := by simp [ht]
        simp [this]
      | some t =>
        by_cases hk : t = k
        · subst hk
          simp [ht, dget_dset_self]
        · have h2 : ¬ ((some t : Option String) = some k) := by simp [hk]
          simp only [ht, if_neg h2]
          exact dget_dset_other acc t (pyStrip p.2) k (fun hh => hk hh.symm)

theorem mem_sopBase_find? (k d : String) (h : (k, d) ∈ sopBase) :
    sopBase.find? (fun p => p.1 = k) = some (k, d) := by
  fin_cases h <;> rfl

/-- Master lemma: the assembled value of a canonical key is the last
non-empty write when one exists, else the documented default. -/
theorem build_sopinfo_get (hd : List (String × String)) (k d : String)
    (h : (k, d) ∈ sopBase) :
    dget (build_sopinfo hd) k =
      some (match lastWrite hd k with
            | some v => if v = "" then d else v
            | none => d) := by
  unfold build_sopinfo
  set f : String × String → String × String := fun p =>
    match dget (hd.foldl sopNormStep []) p.1 with
    | some v => if v ≠ "" then (p.1, v) else p
    | none => p with hf
  have hg : ∀ p, (f p).1 = p.1 := by
    intro p
    simp only [hf]
    cases dget (hd.foldl sopNormStep []) p.1 with
    | none => simp
    | some v => by_cases hv : v ≠ "" <;> simp [hv]
  show dget (sopBase.map f) k = _
  unfold dget
  rw [find?_map_keyfix f hg, mem_sopBase_find? k d h]
  simp only [Option.map_some']
  have hnorm := normFold hd [] k
  simp only [hf]
  cases hlw : lastWrite hd k with
  | none =>
    rw [hlw] at hnorm
    have hn : dget (List.foldl sopNormStep [] hd) k = none := by
      rw [hnorm]
      rfl
    rw [hn]
  | some v =>
    rw [hlw] at hnorm
    have hn : dget (List.foldl sopNormStep [] hd) k = some v := by
      rw [hnorm]
    rw [hn]
    by_cases hv : v = ""
    · simp [hv]
    · simp [hv]

theorem lastWrite_none (l : List (String × String)) (k : String)
    (h : ∀ p ∈ l, sopNormTarget p.1 ≠ some k) : lastWrite l k = none := by
  induction l with
  | nil => rfl
  | cons p l ih =>
    have hl : lastWrite l k = none := ih (fun q hq => h q (List.mem_cons_of_mem p hq))
    simp only [lastWrite, hl]
    rw [if_neg (h p (List.mem_cons_self p l))]

theorem keys_build_sopinfo (hd : List (String × String)) :
    (build_sopinfo hd).map Prod.fst = sopBase.map Prod.fst := by
  unfold build_sopinfo
  rw [List.map_map]
  apply List.map_congr_left
  intro p _
  simp only [Function.comp]
  cases dget (hd.foldl sopNormStep []) p.1 with
  | none => rfl
  | some v => by_cases hv : v ≠ "" <;> simp [hv]

/-! ## Dict update lemmas (for the strategy-merge in `main`) -/

theorem mem_dset (d : List (String × String)) (k v : String) (p : String × String)
    (h : p ∈ dset d k v) : p ∈ d ∨ p.1 = k := by
  unfold dset at h
  by_cases ha : d.any (fun q => q.1 = k)
  · rw [if_pos ha] at h
    rcases List.mem_map.mp h with ⟨q, hq, hqe⟩
    by_cases hqk : q.1 = k
    · right
      rw [if_pos hqk] at hqe
      rw [← hqe]
    · left
      rw [if_neg hqk] at hqe
      rw [← hqe]
      exact hq
  · rw [if_neg ha] at h
    rcases List.mem_append.mp h with h | h
    · exact Or.inl h
    · right
      simp only [List.mem_singleton] at h
      rw [h]

theorem mem_dictUpdate (src : List (String × String)) :
    ∀ (d : List (String × String)) (p : String × String),
      p ∈ dictUpdate d src → p ∈ d ∨ p.1 ∈ src.map Prod.fst := by
  induction src with
  | nil => intro d p h; exact Or.inl h
  | cons q src ih =>
    intro d p h
    have h1 := ih (dset d q.1 q.2) p h
    rcases h1 with h1 | h1
    · rcases mem_dset d q.1 q.2 p h1 with h2 | h2
      · exact Or.inl h2
      · right
        simp [h2]
    · right
      simp only [List.map_cons, List.mem_cons]
      exact Or.inr h1

theorem keys_dset (d : List (String × String)) (k v : String)
    (h : (d.map Prod.fst).Nodup) : ((dset d k v).map Prod.fst).Nodup := by
  unfold dset
  by_cases ha : d.any (fun q => q.1 = k)
  · rw [if_pos ha]
    have : (d.map (fun p => if p.1 = k then (k, v) else p)).map Prod.fst = d.map Prod.fst := by
      rw [List.map_map]
      apply List.map_congr_left
      intro p _
      by_cases hp : p.1 = k <;> simp [hp, Function.comp]
    rw [this]
    exact h
  · rw [if_neg ha]
    rw [List.map_append]
    simp only [List.map_cons, List.map_nil]
    rw [List.nodup_append]
    refine ⟨h, List.nodup_singleton k, ?_⟩
    intro a ha' hb
    simp only [List.mem_singleton] at hb
    subst hb
    rcases List.mem_map.mp ha' with ⟨q, hq, hqe⟩
    have : d.any (fun q => q.1 = a) := List.any_eq_true.mpr ⟨q, hq, by simpa using hqe⟩
    exact ha this

theorem keys_dictUpdate (src : List (String × String)) :
    ∀ (d : List (String × String)), (d.map Prod.fst).Nodup →
      ((dictUpdate d src).map Prod.fst).Nodup := by
  induction src with
  | nil => intro d h; exact h
  | cons q src ih =>
    intro d h
    exact ih (dset d q.1 q.2) (keys_dset d q.1 q.2 h)

theorem dget_dictUpdate (src : List (String × String)) :
    ∀ (d : List (String × String)) (k : String),
      dget (dictUpdate d src) k =
        match dgetLast src k with
        | some v => some v
        | none => dget d k := by
  induction src with
  | nil => intro d k; rfl
  | cons p src ih =>
    intro d k
    show dget (dictUpdate (dset d p.1 p.2) src) k = _
    rw [ih]
    cases hlw : dgetLast src k with
    | some v => simp [dgetLast, hlw]
    | none =>
      simp only [dgetLast, hlw]
      by_cases hp : p.1 = k
      · subst hp
        simp [dget_dset_self]
      · rw [if_neg hp]
        simp only
        exact dget_dset_other d p.1 p.2 k (fun hh => hp hh.symm)

theorem dgetLast_not_mem (l : List (String × String)) (k : String)
    (h : k ∉ l.map Prod.fst) : dgetLast l k = none := by
  induction l with
  | nil => rfl
  | cons p l ih =>
    simp only [List.map_cons, List.mem_cons, not_or] at h
    simp only [dgetLast, ih h.2]
    rw [if_neg (fun hh => h.1 hh.symm)]

theorem dgetLast_nodup (l : List (String × String)) (k : String)
    (hn : (l.map Prod.fst).Nodup) : dgetLast l k = dget l k := by
  induction l with
  | nil => rfl
  | cons p l ih =>
    simp only [List.map_cons, List.nodup_cons] at hn
    by_cases hp : p.1 = k
    · subst hp
      have : dgetLast l p.1 = none :=
        dgetLast_not_mem l p.1 hn.1
      simp [dgetLast, this, dget, List.find?]
    · have h1 : dgetLast (p :: l) k = dgetLast l k := by
        simp only [dgetLast]
        cases dgetLast l k with
        | some v => simp
        | none =>
          simp only
          rw [if_neg hp]
      have h2 : dget (p :: l) k = dget l k := by
        simp [dget, List.find?, show (decide (p.1 = k) = false) by simpa using hp]
      rw [h1, h2, ih hn.2]

theorem lastWrite_unique (k : String) (hk : sopNormTarget k = some k) :
    ∀ (d : List (String × String)), (d.map Prod.fst).Nodup →
      (∀ p ∈ d, sopNormTarget p.1 = some k → p.1 = k) →
      lastWrite d k = (dget d k).map (fun v => pyStrip v) := by
  intro d
  induction d with
  | nil => intro _ _; rfl
  | cons p l ih =>
    intro hn hco
    simp only [List.map_cons, List.nodup_cons] at hn
    by_cases hp : p.1 = k
    · have hlnone : lastWrite l k = none := by
        apply lastWrite_none
        intro q hq hqt
        have hqk := hco q (List.mem_cons_of_mem p hq) hqt
        apply hn.1
        rw [hp, ← hqk]
        exact List.mem_map.mpr ⟨q, hq, rfl⟩
      have hpt : sopNormTarget p.1 = some k := by rw [hp]; exact hk
      simp only [lastWrite, hlnone]
      rw [if_pos hpt]
      simp [dget, List.find?, hp]
    · have hpt : ¬ sopNormTarget p.1 = some k :=
        fun hqt => hp (hco p (List.mem_cons_self p l) hqt)
      have h1 : lastWrite (p :: l) k = lastWrite l k := by
        simp only [lastWrite]
        cases hlw : lastWrite l k with
        | some v => simp
        | none =>
          simp only
          rw [if_neg hpt]
      rw [h1, ih hn.2 (fun q hq => hco q (List.mem_cons_of_mem p hq))]
      have h2 : dget (p :: l) k = dget l k := by
        simp [dget, List.find?, show (decide (p.1 = k) = false) by simpa using hp]
      rw [h2]

theorem canonical_mem_base (s ck : String) (h : canonical_header_key s = some ck) :
    ∃ d, (ck, d) ∈ sopBase := by
  simp only [canonical_header_key] at h
  cases hf : HEADER_KEY_SYNONYMS.find? (fun p => pyLower (pyStrip s) ∈ p.2) with
  | none => rw [hf] at h; simp at h
  | some p =>
    rw [hf] at h
    simp only [Option.map_some', Option.some.injEq] at h
    have hp : p ∈ HEADER_KEY_SYNONYMS := List.mem_of_find?_eq_some hf
    have hall : ∀ q ∈ HEADER_KEY_SYNONYMS, q.1 ∈ sopBase.map Prod.fst := by decide
    rcases List.mem_map.mp (hall p hp) with ⟨q, hq, hq1⟩
    refine ⟨q.2, ?_⟩
    rw [← h, ← hq1]
    simpa using hq

/-! ## Best-row scan characterisation -/

theorem scanBestBy_step (h : Nat → Nat) (w : Nat) :
    scanBestBy h (w + 1) =
      (if h w > (scanBestBy h w).2 then (some w, h w) else scanBestBy h w) := by
  unfold scanBestBy
  rw [List.range_succ, List.foldl_append]
  rfl

theorem scanBestBy_inv (h : Nat → Nat) (w : Nat) :
    (∀ j, j < w → h j ≤ (scanBestBy h w).2) ∧
    ((scanBestBy h w).1 = none → (scanBestBy h w).2 = 0) ∧
    (∀ i, (scanBestBy h w).1 = some i →
      i < w ∧ h i = (scanBestBy h w).2 ∧ 0 < (scanBestBy h w).2 ∧
      ∀ j, j < i → h j < h i) := by
  induction w with
  | zero =>
    refine ⟨fun j hj => absurd hj (Nat.not_lt_zero j), fun _ => rfl, fun i hi => ?_⟩
    rw [show scanBestBy h 0 = (none, 0) from rfl] at hi
    simp at hi
  | succ w ih =>
    rcases ih with ⟨hmax, hnone, hsome⟩
    rw [scanBestBy_step h w]
    by_cases hgt : h w > (scanBestBy h w).2
    · rw [if_pos hgt]
      refine ⟨?_, ?_, ?_⟩
      · intro j hj
        rcases Nat.lt_succ_iff_lt_or_eq.mp hj with hj | hj
        · exact Nat.le_of_lt (Nat.lt_of_le_of_lt (hmax j hj) hgt)
        · subst hj; exact Nat.le_refl _
      · intro hco; exact absurd hco (by simp)
      · intro i hi
        simp only [Option.some.injEq] at hi
        subst hi
        refine ⟨Nat.lt_succ_self w, rfl, Nat.lt_of_le_of_lt (Nat.zero_le _) hgt, ?_⟩
        intro j hj
        exact Nat.lt_of_le_of_lt (hmax j hj) hgt
    · rw [if_neg hgt]
      have hwle : h w ≤ (scanBestBy h w).2 := Nat.le_of_not_lt hgt
      refine ⟨?_, hnone, ?_⟩
      · intro j hj
        rcases Nat.lt_succ_iff_lt_or_eq.mp hj with hj | hj
        · exact hmax j hj
        · subst hj; exact hwle
      · intro i hi
        rcases hsome i hi with ⟨h1, h2, h3, h4⟩
        exact ⟨Nat.lt_succ_of_lt h1, h2, h3, h4⟩

/-! ## Stable sort lemmas -/

theorem sInsert_perm (key : α → Int) (a : α) (l : List α) :
    List.Perm (sInsert key a l) (a :: l) := by
  induction l with
  | nil => exact List.Perm.refl _
  | cons b l ih =>
    simp only [sInsert]
    by_cases h : key a ≤ key b
    · rw [if_pos h]
    · rw [if_neg h]
      exact (ih.cons b).trans (List.Perm.swap a b l)

theorem pySort_perm (key : α → Int) (l : List α) : List.Perm (pySort key l) l := by
  induction l with
  | nil => exact List.Perm.refl _
  | cons a l ih =>
    exact (sInsert_perm key a (pySort key l)).trans (ih.cons a)

theorem sInsert_sorted (key : α → Int) (a : α) (l : List α)
    (h : l.Pairwise (fun x y => key x ≤ key y)) :
    (sInsert key a l).Pairwise (fun x y => key x ≤ key y) := by
  induction l with
  | nil => simp [sInsert]
  | cons b l ih =>
    rcases List.pairwise_cons.mp h with ⟨hb, hl⟩
    simp only [sInsert]
    by_cases hab : key a ≤ key b
    · rw [if_pos hab]
      refine List.pairwise_cons.mpr ⟨?_, h⟩
      intro x hx
      rcases List.mem_cons.mp hx with hx | hx
      · rw [hx]; exact hab
      · exact le_trans hab (hb x hx)
    · rw [if_neg hab]
      refine List.pairwise_cons.mpr ⟨?_, ih hl⟩
      intro x hx
      have hx' := (sInsert_perm key a l).mem_iff.mp hx
      rcases List.mem_cons.mp hx' with hx' | hx'
      · rw [hx']
        exact le_of_lt (lt_of_not_le hab)
      · exact hb x hx'

theorem pySort_sorted (key : α → Int) (l : List α) :
    (pySort key l).Pairwise (fun x y => key x ≤ key y) := by
  induction l with
  | nil => simp [pySort]
  | cons a l ih => exact sInsert_sorted key a (pySort key l) ih

theorem sInsert_filter (key : α → Int) (a : α) (l : List α) (k : Int) :
    (sInsert key a l).filter (fun x => decide (key x = k)) =
      if key a = k then a :: l.filter (fun x => decide (key x = k))
      else l.filter (fun x => decide (key x = k)) := by
  induction l with
  | nil =>
    by_cases h : key a = k
    · simp [sInsert, List.filter, h]
    · simp [sInsert, List.filter, h]
  | cons b l ih =>
    simp only [sInsert]
    by_cases hab : key a ≤ key b
    · rw [if_pos hab]
      by_cases h : key a = k
      · simp [List.filter_cons, h]
      · simp [List.filter_cons, h]
    · rw [if_neg hab]
      by_cases h : key a = k
      · have hbk : ¬ (key b = k) := fun hbk => hab (le_of_eq (by rw [h, hbk]))
        simp [List.filter_cons, ih, h, hbk]
      · simp [List.filter_cons, ih, h]

theorem pySort_filter (key : α → Int) (l : List α) (k : Int) :
    (pySort key l).filter (fun x => decide (key x = k)) =
      l.filter (fun x => decide (key x = k)) := by
  induction l with
  | nil => rfl
  | cons a l ih =>
    show (sInsert key a (pySort key l)).filter _ = _
    rw [sInsert_filter]
    by_cases h : key a = k
    · rw [if_pos h, ih]
      simp [List.filter_cons, h]
    · rw [if_neg h, ih]
      simp [List.filter_cons, h]

/-! ## Character lemmas for the sanitizer -/

theorem char_toNat_ofNat (n : Nat) (h : n < 55296) : (Char.ofNat n).toNat = n := by
  unfold Char.ofNat
  rw [dif_pos (Or.inl h)]
  rfl

theorem lowChar_toNat_spec (c : Char) :
    ((65 ≤ c.toNat ∧ c.toNat ≤ 90) → (lowChar c).toNat = c.toNat + 32) ∧
    (¬ (65 ≤ c.toNat ∧ c.toNat ≤ 90) → lowChar c = c) := by
  constructor
  · intro h
    unfold lowChar
    have hb : (65 ≤ c.toNat && c.toNat ≤ 90) = true := by
      simp only [Bool.and_eq_true, decide_eq_true_eq]
      exact h
    rw [if_pos hb]
    exact char_toNat_ofNat _ (by omega)
  · intro h
    unfold lowChar
    have hb : ¬ ((65 ≤ c.toNat && c.toNat ≤ 90) = true) := by
      simp only [Bool.and_eq_true, decide_eq_true_eq]
      exact h
    rw [if_neg hb]

theorem lowSlugChar_iff (c : Char) :
    lowSlugChar c = true ↔
      ((97 ≤ c.toNat ∧ c.toNat ≤ 122) ∨ (48 ≤ c.toNat ∧ c.toNat ≤ 57) ∨ c = '_') := by
  simp [lowSlugChar, Bool.or_eq_true, Bool.and_eq_true, decide_eq_true_eq, or_assoc]

theorem isAsciiAlnum_iff (c : Char) :
    isAsciiAlnum c = true ↔
      ((97 ≤ c.toNat ∧ c.toNat ≤ 122) ∨ (65 ≤ c.toNat ∧ c.toNat ≤ 90) ∨
        (48 ≤ c.toNat ∧ c.toNat ≤ 57)) := by
  simp [isAsciiAlnum, Bool.or_eq_true, Bool.and_eq_true, decide_eq_true_eq, or_assoc]

theorem slugChar_iff (c : Char) :
    slugChar c = true ↔ (isAsciiAlnum c = true ∨ c = '_') := by
  simp [slugChar]

theorem isAsciiDigit_iff (c : Char) :
    isAsciiDigit c = true ↔ (48 ≤ c.toNat ∧ c.toNat ≤ 57) := by
  simp [isAsciiDigit, Bool.and_eq_true, decide_eq_true_eq]

theorem isPyWs_iff (c : Char) :
    isPyWs c = true ↔
      (c.toNat = 32 ∨ c.toNat = 9 ∨ c.toNat = 10 ∨ c.toNat = 13 ∨
        c.toNat = 11 ∨ c.toNat = 12) := by
  simp [isPyWs, Bool.or_eq_true, decide_eq_true_eq, or_assoc]

theorem underscore_toNat : ('_' : Char).toNat = 95 := by decide

theorem lowChar_id_of_lowSlug (c : Char) (h : lowSlugChar c = true) : lowChar c = c := by
  apply (lowChar_toNat_spec c).2
  rcases (lowSlugChar_iff c).mp h with h | h | h
  · omega
  · omega
  · rw [h, underscore_toNat]
    omega

theorem lowSlug_of_slug_lowChar (c : Char) (h : slugChar c = true) :
    lowSlugChar (lowChar c) = true := by
  rcases (slugChar_iff c).mp h with h | h
  · rcases (isAsciiAlnum_iff c).mp h with h | h | h
    · rw [(lowChar_toNat_spec c).2 (by omega)]
      exact (lowSlugChar_iff c).mpr (Or.inl h)
    · have ht := (lowChar_toNat_spec c).1 h
      apply (lowSlugChar_iff _).mpr
      left
      omega
    · rw [(lowChar_toNat_spec c).2 (by omega)]
      exact (lowSlugChar_iff c).mpr (Or.inr (Or.inl h))
  · rw [h]
    decide

theorem ws_false_of_lowSlug (c : Char) (h : lowSlugChar c = true) : isPyWs c = false := by
  rw [Bool.eq_false_iff, Ne, isPyWs_iff]
  rcases (lowSlugChar_iff c).mp h with h | h | h
  · omega
  · omega
  · rw [h, underscore_toNat]
    omega

theorem slug_of_lowSlug (c : Char) (h : lowSlugChar c = true) : slugChar c = true := by
  rcases (lowSlugChar_iff c).mp h with h | h | h
  · exact (slugChar_iff c).mpr (Or.inl ((isAsciiAlnum_iff c).mpr (Or.inl h)))
  · exact (slugChar_iff c).mpr (Or.inl ((isAsciiAlnum_iff c).mpr (Or.inr (Or.inr h))))
  · exact (slugChar_iff c).mpr (Or.inr h)

theorem alnum_lowChar (c : Char) (h : slugChar c = true) :
    isAsciiAlnum (lowChar c) = isAsciiAlnum c := by
  rcases (slugChar_iff c).mp h with h | h
  · rcases (isAsciiAlnum_iff c).mp h with h' | h' | h'
    · rw [(lowChar_toNat_spec c).2 (by omega)]
    · have ht := (lowChar_toNat_spec c).1 h'
      have h1 : isAsciiAlnum (lowChar c) = true := by
        apply (isAsciiAlnum_iff _).mpr
        left
        omega
      rw [h1, h]
    · rw [(lowChar_toNat_spec c).2 (by omega)]
  · rw [h]
    decide

theorem lowChar_ne_underscore (c : Char) (h : isAsciiAlnum c = true) :
    ¬ lowChar c = '_' := by
  intro he
  have ht : (lowChar c).toNat = 95 := by
    rw [he, underscore_toNat]
  rcases (isAsciiAlnum_iff c).mp h with h' | h' | h'
  · rw [(lowChar_toNat_spec c).2 (by omega)] at ht
    omega
  · have := (lowChar_toNat_spec c).1 h'
    omega
  · rw [(lowChar_toNat_spec c).2 (by omega)] at ht
    omega

theorem digit_lowChar (c : Char) (h : slugChar c = true) :
    isAsciiDigit (lowChar c) = isAsciiDigit c := by
  rcases (slugChar_iff c).mp h with h | h
  · rcases (isAsciiAlnum_iff c).mp h with h' | h' | h'
    · rw [(lowChar_toNat_spec c).2 (by omega)]
    · have ht := (lowChar_toNat_spec c).1 h'
      have h1 : isAsciiDigit (lowChar c) = false := by
        rw [Bool.eq_false_iff, Ne, isAsciiDigit_iff]
        omega
      have h2 : isAsciiDigit c = false := by
        rw [Bool.eq_false_iff, Ne, isAsciiDigit_iff]
        omega
      rw [h1, h2]
    · rw [(lowChar_toNat_spec c).2 (by omega)]
  · rw [h]
    decide

/-! ## Collapse and strip lemmas for the sanitizer -/

theorem collapse_chars (l : List Char) : ∀ c ∈ collapseRuns l, slugChar c = true := by
  induction l using collapseRuns.induct with
  | case1 =>
    intro c hc
    simp [collapseRuns] at hc
  | case2 c h =>
    intro x hx
    simp only [collapseRuns, if_pos h, List.mem_singleton] at hx
    rw [hx]
    exact (slugChar_iff c).mpr (Or.inl h)
  | case3 c h =>
    intro x hx
    simp only [collapseRuns, if_neg h, List.mem_singleton] at hx
    rw [hx]
    decide
  | case4 c d t hc ih =>
    intro x hx
    simp only [collapseRuns, if_pos hc, List.mem_cons] at hx
    rcases hx with hx | hx
    · rw [hx]
      exact (slugChar_iff c).mpr (Or.inl hc)
    · exact ih x hx
  | case5 c d t hc hd ih =>
    intro x hx
    simp only [collapseRuns, if_neg hc, if_pos hd, List.mem_cons] at hx
    rcases hx with hx | hx
    · rw [hx]
      decide
    · exact ih x hx
  | case6 c d t hc hd ih =>
    intro x hx
    simp only [collapseRuns, if_neg hc, if_neg hd] at hx
    exact ih x hx

theorem collapse_head_alnum (d : Char) (t : List Char) (h : isAsciiAlnum d = true) :
    (collapseRuns (d :: t)).head? = some d := by
  cases t with
  | nil => simp [collapseRuns, if_pos h]
  | cons e t' => simp [collapseRuns, if_pos h]

theorem collapse_chain (l : List Char) :
    (collapseRuns l).Chain'
      (fun a b => isAsciiAlnum a = true ∨ isAsciiAlnum b = true) := by
  induction l using collapseRuns.induct with
  | case1 => simp [collapseRuns]
  | case2 c h => simp [collapseRuns, if_pos h]
  | case3 c h => simp [collapseRuns, if_neg h]
  | case4 c d t hc ih =>
    simp only [collapseRuns, if_pos hc]
    exact List.chain'_cons'.mpr ⟨fun y _ => Or.inl hc, ih⟩
  | case5 c d t hc hd ih =>
    simp only [collapseRuns, if_neg hc, if_pos hd]
    refine List.chain'_cons'.mpr ⟨?_, ih⟩
    intro y hy
    rw [collapse_head_alnum d t hd] at hy
    simp only [Option.mem_def, Option.some.injEq] at hy
    rw [hy] at hd
    exact Or.inr hd
  | case6 c d t hc hd ih =>
    simp only [collapseRuns, if_neg hc, if_neg hd]
    exact ih

theorem collapse_id (l : List Char) (h1 : ∀ c ∈ l, slugChar c = true)
    (h2 : l.Chain' (fun a b => isAsciiAlnum a = true ∨ isAsciiAlnum b = true)) :
    collapseRuns l = l := by
  induction l using collapseRuns.induct with
  | case1 => rfl
  | case2 c h => simp [collapseRuns, if_pos h]
  | case3 c h =>
    simp only [collapseRuns, if_neg h]
    rcases (slugChar_iff c).mp (h1 c (List.mem_singleton_self c)) with h' | h'
    · exact absurd h' h
    · rw [h']
  | case4 c d t hc ih =>
    simp only [collapseRuns, if_pos hc]
    rw [ih (fun x hx => h1 x (List.mem_cons_of_mem c hx)) (List.chain'_cons'.mp h2).2]
  | case5 c d t hc hd ih =>
    simp only [collapseRuns, if_neg hc, if_pos hd]
    have hcu : c = '_' := by
      rcases (slugChar_iff c).mp (h1 c (List.mem_cons_self c _)) with h' | h'
      · exact absurd h' hc
      · exact h'
    rw [← hcu, ih (fun x hx => h1 x (List.mem_cons_of_mem c hx)) (List.chain'_cons'.mp h2).2]
  | case6 c d t hc hd _ =>
    exfalso
    have := (List.chain'_cons'.mp h2).1 d (by simp)
    rcases this with h' | h'
    · exact hc h'
    · exact hd h'

theorem dropWhile_head_false (p : α → Bool) :
    ∀ (l : List α) (c : α) (t : List α), l.dropWhile p = c :: t → p c = false := by
  intro l
  induction l with
  | nil => intro c t h; cases h
  | cons a l ih =>
    intro c t h
    rw [List.dropWhile_cons] at h
    by_cases hp : p a = true
    · rw [if_pos hp] at h
      exact ih c t h
    · rw [if_neg hp] at h
      cases h
      exact Bool.not_eq_true _ |>.mp hp

theorem dropWhile_all_false (p : α → Bool) (l : List α)
    (h : ∀ c ∈ l, p c = false) : l.dropWhile p = l := by
  cases l with
  | nil => rfl
  | cons c t =>
    rw [List.dropWhile_cons, if_neg]
    rw [h c (List.mem_cons_self c t)]
    simp

theorem pyStripL_eq_self (l : List Char) (h : ∀ c ∈ l, isPyWs c = false) :
    pyStripL l = l := by
  unfold pyStripL
  rw [dropWhile_all_false _ l h]
  rw [dropWhile_all_false _ l.reverse (fun c hc => h c (List.mem_reverse.mp hc))]
  exact List.reverse_reverse l

theorem stripUnderscores_reverse (l : List Char) :
    (stripUnderscores l).reverse =
      (l.dropWhile (fun c => c = '_')).reverse.dropWhile (fun c => c = '_') := by
  unfold stripUnderscores
  exact List.reverse_reverse _

theorem stripUnderscores_pre (l : List Char) :
    stripUnderscores l <+: l.dropWhile (fun c => c = '_') := by
  rw [← List.reverse_suffix, stripUnderscores_reverse]
  exact List.dropWhile_suffix _

theorem stripUnderscores_inf (l : List Char) : stripUnderscores l <:+: l :=
  (stripUnderscores_pre l).isInfix.trans (List.dropWhile_suffix _).isInfix

theorem stripUnderscores_mem (l : List Char) (c : Char) (h : c ∈ stripUnderscores l) :
    c ∈ l :=
  (stripUnderscores_inf l).subset h

theorem stripUnderscores_head (l : List Char) (c : Char) (t : List Char)
    (h : stripUnderscores l = c :: t) : ¬ c = '_' := by
  rcases stripUnderscores_pre l with ⟨r, hr⟩
  rw [h] at hr
  have := dropWhile_head_false (fun c => c = '_') l c (t ++ r) hr.symm
  simpa using this

theorem stripUnderscores_last (l : List Char) (c : Char) (t : List Char)
    (h : (stripUnderscores l).reverse = c :: t) : ¬ c = '_' := by
  rw [stripUnderscores_reverse] at h
  have := dropWhile_head_false (fun c => c = '_') _ c t h
  simpa using this

theorem stripUnderscores_eq_self (l : List Char)
    (hh : ∀ c t, l = c :: t → ¬ c = '_')
    (hl : ∀ c t, l.reverse = c :: t → ¬ c = '_') :
    stripUnderscores l = l := by
  unfold stripUnderscores
  have h1 : l.dropWhile (fun c => c = '_') = l := by
    cases hc : l with
    | nil => rfl
    | cons c t =>
      rw [List.dropWhile_cons, if_neg]
      simpa using hh c t hc
  rw [h1]
  have h2 : l.reverse.dropWhile (fun c => c = '_') = l.reverse := by
    cases hc : l.reverse with
    | nil => rfl
    | cons c t =>
      rw [List.dropWhile_cons, if_neg]
      simpa using hl c t hc
  rw [h2, List.reverse_reverse]

/-! ## Slugify characterisation -/

theorem chain_map_lowChar (l : List Char) (hs : ∀ c ∈ l, slugChar c = true)
    (h : l.Chain' (fun a b => isAsciiAlnum a = true ∨ isAsciiAlnum b = true)) :
    (l.map lowChar).Chain'
      (fun a b => isAsciiAlnum a = true ∨ isAsciiAlnum b = true) := by
  induction l with
  | nil => simp
  | cons c t ih =>
    rw [List.map_cons]
    refine List.chain'_cons'.mpr
      ⟨?_, ih (fun x hx => hs x (List.mem_cons_of_mem c hx)) (List.chain'_cons'.mp h).2⟩
    intro y hy
    rw [List.head?_map] at hy
    rcases Option.map_eq_some'.mp hy with ⟨z, hz, hzy⟩
    have hR := (List.chain'_cons'.mp h).1 z hz
    rw [← hzy,
      alnum_lowChar c (hs c (List.mem_cons_self c t)),
      alnum_lowChar z (hs z (List.mem_cons_of_mem c (List.mem_of_mem_head? hz)))]
    exact hR

theorem slugifyL_eq_nil (x : List Char) (h : pyStripL x = []) : slugifyL x = [] := by
  simp [slugifyL, h]

theorem slugifyL_eq_empty2 (x : List Char) (h1 : ¬ pyStripL x = [])
    (h2 : stripUnderscores (collapseRuns (pyStripL x)) = []) : slugifyL x = [] := by
  simp only [slugifyL, if_neg h1, h2]
  rfl

theorem slugifyL_eq_digit (x : List Char) (c : Char) (t : List Char)
    (h1 : ¬ pyStripL x = [])
    (h2 : stripUnderscores (collapseRuns (pyStripL x)) = c :: t)
    (h3 : isAsciiDigit c = true) :
    slugifyL x = ('s' :: 't' :: 'e' :: 'p' :: '_' :: c :: t).map lowChar := by
  simp only [slugifyL, if_neg h1, h2, if_pos h3]

theorem slugifyL_eq_nodigit (x : List Char) (c : Char) (t : List Char)
    (h1 : ¬ pyStripL x = [])
    (h2 : stripUnderscores (collapseRuns (pyStripL x)) = c :: t)
    (h3 : ¬ isAsciiDigit c = true) :
    slugifyL x = (c :: t).map lowChar := by
  simp only [slugifyL, if_neg h1, h2, if_neg h3]

theorem slugify_good (x : List Char) :
    slugifyL x = [] ∨
    ((∀ c ∈ slugifyL x, lowSlugChar c = true) ∧
     (slugifyL x).Chain' (fun a b => isAsciiAlnum a = true ∨ isAsciiAlnum b = true) ∧
     (∀ c t, slugifyL x = c :: t → (¬ c = '_' ∧ isAsciiDigit c = false)) ∧
     (∀ c t, (slugifyL x).reverse = c :: t → ¬ c = '_')) := by
  by_cases h1 : pyStripL x = []
  · exact Or.inl (slugifyL_eq_nil x h1)
  cases hs2 : stripUnderscores (collapseRuns (pyStripL x)) with
  | nil => exact Or.inl (slugifyL_eq_empty2 x h1 hs2)
  | cons c t2 =>
    have Hchars : ∀ e ∈ c :: t2, slugChar e = true := by
      intro e he
      rw [← hs2] at he
      exact collapse_chars _ e (stripUnderscores_mem _ e he)
    have Hchain : (c :: t2).Chain'
        (fun a b => isAsciiAlnum a = true ∨ isAsciiAlnum b = true) := by
      rw [← hs2]
      exact List.Chain'.infix (collapse_chain _) (stripUnderscores_inf _)
    have Hhead : ¬ c = '_' := stripUnderscores_head _ c t2 hs2
    have Hc_alnum : isAsciiAlnum c = true := by
      rcases (slugChar_iff c).mp (Hchars c (List.mem_cons_self c t2)) with h | h
      · exact h
      · exact absurd h Hhead
    have Hrev : ∃ rc rt, (c :: t2).reverse = rc :: rt := by
      cases hr : (c :: t2).reverse with
      | nil =>
        have := congrArg List.length hr
        simp at this
      | cons rc rt => exact ⟨rc, rt, rfl⟩
    rcases Hrev with ⟨rc, rt, hrev⟩
    have Hrc : ¬ rc = '_' := by
      apply stripUnderscores_last _ rc rt
      rw [hs2]
      exact hrev
    have Hrc_alnum : isAsciiAlnum rc = true := by
      have hmem : rc ∈ c :: t2 := by
        rw [← List.mem_reverse, hrev]
        exact List.mem_cons_self rc rt
      rcases (slugChar_iff rc).mp (Hchars rc hmem) with h | h
      · exact h
      · exact absurd h Hrc
    right
    by_cases hd : isAsciiDigit c = true
    · rw [slugifyL_eq_digit x c t2 h1 hs2 hd]
      have Hpre : ∀ e ∈ 's' :: 't' :: 'e' :: 'p' :: '_' :: c :: t2, slugChar e = true := by
        intro e he
        rcases List.mem_cons.mp he with rfl | he
        · decide
        rcases List.mem_cons.mp he with rfl | he
        · decide
        rcases List.mem_cons.mp he with rfl | he
        · decide
        rcases List.mem_cons.mp he with rfl | he
        · decide
        rcases List.mem_cons.mp he with rfl | he
        · decide
        exact Hchars e he
      refine ⟨?_, ?_, ?_, ?_⟩
      · intro e he
        rcases List.mem_map.mp he with ⟨z, hz, hze⟩
        rw [← hze]
        exact lowSlug_of_slug_lowChar z (Hpre z hz)
      · apply chain_map_lowChar _ Hpre
        refine List.chain'_cons'.mpr ⟨fun y _ => Or.inl (by decide), ?_⟩
        refine List.chain'_cons'.mpr ⟨fun y _ => Or.inl (by decide), ?_⟩
        refine List.chain'_cons'.mpr ⟨fun y _ => Or.inl (by decide), ?_⟩
        refine List.chain'_cons'.mpr ⟨fun y _ => Or.inl (by decide), ?_⟩
        refine List.chain'_cons'.mpr ⟨?_, Hchain⟩
        intro y hy
        simp only [List.head?_cons, Option.mem_def, Option.some.injEq] at hy
        rw [hy] at Hc_alnum
        exact Or.inr Hc_alnum
      · intro e te he
        simp only [List.map_cons] at he
        have he' : e = lowChar 's' := ((List.cons.injEq _ _ _ _ ▸ he).1).symm
        rw [he']
        constructor
        · decide
        · decide
      · intro e te he
        rw [← List.map_reverse] at he
        have hrev' : ('s' :: 't' :: 'e' :: 'p' :: '_' :: c :: t2).reverse =
            rc :: (rt ++ ['_', 'p', 'e', 't', 's']) := by
          have : 's' :: 't' :: 'e' :: 'p' :: '_' :: c :: t2 =
              ['s', 't', 'e', 'p', '_'] ++ (c :: t2) := rfl
          rw [this, List.reverse_append, hrev]
          rfl
        rw [hrev'] at he
        simp only [List.map_cons] at he
        have he' : e = lowChar rc := ((List.cons.injEq _ _ _ _ ▸ he).1).symm
        rw [he']
        exact lowChar_ne_underscore rc Hrc_alnum
    · rw [slugifyL_eq_nodigit x c t2 h1 hs2 hd]
      refine ⟨?_, ?_, ?_, ?_⟩
      · intro e he
        rcases List.mem_map.mp he with ⟨z, hz, hze⟩
        rw [← hze]
        exact lowSlug_of_slug_lowChar z (Hchars z hz)
      · exact chain_map_lowChar _ Hchars Hchain
      · intro e te he
        simp only [List.map_cons] at he
        have he' : e = lowChar c := ((List.cons.injEq _ _ _ _ ▸ he).1).symm
        rw [he']
        constructor
        · exact lowChar_ne_underscore c Hc_alnum
        · rw [digit_lowChar c (Hchars c (List.mem_cons_self c t2))]
          exact Bool.not_eq_true _ |>.mp hd
      · intro e te he
        rw [← List.map_reverse, hrev] at he
        simp only [List.map_cons] at he
        have he' : e = lowChar rc := ((List.cons.injEq _ _ _ _ ▸ he).1).symm
        rw [he']
        exact lowChar_ne_underscore rc Hrc_alnum

theorem slugify_fixed (y : List Char)
    (hall : ∀ c ∈ y, lowSlugChar c = true)
    (hchain : y.Chain' (fun a b => isAsciiAlnum a = true ∨ isAsciiAlnum b = true))
    (hhead : ∀ c t, y = c :: t → (¬ c = '_' ∧ isAsciiDigit c = false))
    (hlast : ∀ c t, y.reverse = c :: t → ¬ c = '_') :
    slugifyL y = y := by
  cases hy : y with
  | nil => exact slugifyL_eq_nil [] rfl
  | cons c t =>
    rw [← hy]
    have hstrip : pyStripL y = y :=
      pyStripL_eq_self y (fun e he => ws_false_of_lowSlug e (hall e he))
    have h1 : ¬ pyStripL y = [] := by
      rw [hstrip, hy]
      simp
    have hcoll : collapseRuns (pyStripL y) = y := by
      rw [hstrip]
      exact collapse_id y (fun e he => slug_of_lowSlug e (hall e he)) hchain
    have hus : stripUnderscores (collapseRuns (pyStripL y)) = y := by
      rw [hcoll]
      exact stripUnderscores_eq_self y (fun e te he => (hhead e te he).1) hlast
    have hdig : ¬ isAsciiDigit c = true := by
      rw [(hhead c t hy).2]
      simp
    rw [slugifyL_eq_nodigit y c t h1 (by rw [hus, hy]) hdig]
    rw [← hy]
    have : ∀ e ∈ y, lowChar e = e := fun e he => lowChar_id_of_lowSlug e (hall e he)
    calc y.map lowChar = y.map id := List.map_congr_left this
    _ = y := List.map_id y

/-! ## Decimal rendering and unique-id lemmas -/

theorem natToDecAux_append : ∀ (f n : Nat) (acc : List Char),
    natToDecAux f n acc = natToDecAux f n [] ++ acc := by
  intro f
  induction f with
  | zero => intro n acc; rfl
  | succ f ih =>
    intro n acc
    cases n with
    | zero => rfl
    | succ n =>
      show natToDecAux f ((n + 1) / 10) (decDigit ((n + 1) % 10) :: acc) = _
      rw [ih ((n + 1) / 10) (decDigit ((n + 1) % 10) :: acc)]
      show _ = natToDecAux f ((n + 1) / 10) [decDigit ((n + 1) % 10)] ++ acc
      rw [ih ((n + 1) / 10) [decDigit ((n + 1) % 10)]]
      rw [List.append_assoc]
      rfl

theorem natToDecAux_fuel : ∀ (n f f' : Nat), n ≤ f → n ≤ f' →
    ∀ acc, natToDecAux f n acc = natToDecAux f' n acc := by
  intro n
  induction n using Nat.strong_induction_on with
  | _ n ih =>
    intro f f' hf hf' acc
    cases n with
    | zero =>
      cases f <;> cases f' <;> rfl
    | succ n =>
      have hq : (n + 1) / 10 < n + 1 := Nat.div_lt_self (Nat.succ_pos n) (by omega)
      cases f with
      | zero => omega
      | succ f =>
        cases f' with
        | zero => omega
        | succ f' =>
          show natToDecAux f ((n + 1) / 10) _ = natToDecAux f' ((n + 1) / 10) _
          exact ih ((n + 1) / 10) hq f f' (by omega) (by omega) _

theorem natToDec_step (n : Nat) (h : 0 < n) :
    natToDecAux n n [] = natToDecAux (n / 10) (n / 10) [] ++ [decDigit (n % 10)] := by
  cases n with
  | zero => omega
  | succ m =>
    show natToDecAux m ((m + 1) / 10) [decDigit ((m + 1) % 10)] = _
    rw [natToDecAux_append m ((m + 1) / 10) [decDigit ((m + 1) % 10)]]
    have hq : (m + 1) / 10 ≤ m := by
      have := Nat.div_lt_self (Nat.succ_pos m) (show 1 < 10 by omega)
      omega
    rw [natToDecAux_fuel ((m + 1) / 10) m ((m + 1) / 10) hq (Nat.le_refl _) []]

theorem decDigit_toNat (r : Nat) (h : r < 10) : (decDigit r).toNat = 48 + r := by
  unfold decDigit
  exact char_toNat_ofNat (48 + r) (by omega)

theorem decVal_append_digit (l : List Char) (c : Char) :
    decVal (l ++ [c]) = decVal l * 10 + (c.toNat - 48) := by
  unfold decVal
  rw [List.foldl_append]
  rfl

theorem decVal_natToDecAux : ∀ n, decVal (natToDecAux n n []) = n := by
  intro n
  induction n using Nat.strong_induction_on with
  | _ n ih =>
    cases n with
    | zero => rfl
    | succ m =>
      rw [natToDec_step (m + 1) (Nat.succ_pos m)]
      rw [decVal_append_digit]
      have hq : (m + 1) / 10 < m + 1 := Nat.div_lt_self (Nat.succ_pos m) (by omega)
      rw [ih ((m + 1) / 10) hq]
      rw [decDigit_toNat ((m + 1) % 10) (Nat.mod_lt _ (by omega))]
      omega

theorem decVal_natToDec (n : Nat) : decVal (natToDec n) = n := by
  unfold natToDec
  by_cases h : n = 0
  · rw [if_pos h, h]
    rfl
  · rw [if_neg h]
    exact decVal_natToDecAux n

theorem natToDec_inj (a b : Nat) (h : natToDec a = natToDec b) : a = b := by
  have := congrArg decVal h
  rw [decVal_natToDec, decVal_natToDec] at this
  exact this

theorem probeCand_inj (cand : String) (i j : Nat)
    (h : probeCand cand i = probeCand cand j) : i = j := by
  unfold probeCand at h
  have hd := congrArg String.data h
  have hl : ∀ (a b : String), (a ++ b).data = a.data ++ b.data := fun a b => rfl
  rw [hl, hl, hl, hl] at hd
  rw [List.append_assoc, List.append_assoc] at hd
  have hd2 := List.append_cancel_left hd
  have hd3 := List.append_cancel_left hd2
  exact natToDec_inj i j hd3

theorem probeSuffix_spec : ∀ (fuel i : Nat) (cand : String) (used : List String),
    (((List.range fuel).map (fun k => probeCand cand (i + k))).filter
        (fun s => decide (s ∈ used))).length < fuel →
    probeSuffix fuel i cand used ∉ used := by
  intro fuel
  induction fuel with
  | zero =>
    intro i cand used h
    omega
  | succ fuel ih =>
    intro i cand used h
    show (if probeCand cand i ∈ used then probeSuffix fuel (i + 1) cand used
      else probeCand cand i) ∉ used
    by_cases hmem : probeCand cand i ∈ used
    · rw [if_pos hmem]
      apply ih (i + 1) cand used
      have hsplit : (List.range (fuel + 1)).map (fun k => probeCand cand (i + k)) =
          probeCand cand i ::
            (List.range fuel).map (fun k => probeCand cand (i + 1 + k)) := by
        rw [List.range_succ_eq_map, List.map_cons, List.map_map]
        congr 1
        apply List.map_congr_left
        intro k _
        simp only [Function.comp]
        congr 1
        omega
      rw [hsplit, List.filter_cons] at h
      rw [if_pos (by simpa using hmem)] at h
      simp only [List.length_cons] at h
      omega
    · rw [if_neg hmem]
      exact hmem

theorem ensure_unique_not_mem (cand : String) (used : List String) :
    (ensure_unique_id cand used).1 ∉ used := by
  unfold ensure_unique_id
  by_cases hmem : cand ∈ used
  · rw [if_pos hmem]
    apply probeSuffix_spec
    set L := (List.range (used.length + 1)).map (fun k => probeCand cand (2 + k)) with hL
    have hnd : L.Nodup := by
      rw [hL]
      apply List.Nodup.map
      · intro a b hab
        have := probeCand_inj cand (2 + a) (2 + b) hab
        omega
      · exact List.nodup_range _
    have hsub : (L.filter (fun s => decide (s ∈ used))).toFinset ⊆ used.toFinset := by
      intro s hs
      rw [List.mem_toFinset] at hs
      rw [List.mem_toFinset]
      have := List.of_mem_filter hs
      simpa using this
    have hndf : (L.filter (fun s => decide (s ∈ used))).Nodup := hnd.filter _
    have h1 : (L.filter (fun s => decide (s ∈ used))).length =
        (L.filter (fun s => decide (s ∈ used))).toFinset.card :=
      (List.toFinset_card_of_nodup hndf).symm
    have h2 : (L.filter (fun s => decide (s ∈ used))).toFinset.card ≤
        used.toFinset.card := Finset.card_le_card hsub
    have h3 : used.toFinset.card ≤ used.length := used.toFinset_card_le
    omega
  · rw [if_neg hmem]
    exact hmem

theorem ensure_unique_used (cand : String) (used : List String) :
    (ensure_unique_id cand used).2 = (ensure_unique_id cand used).1 :: used := by
  unfold ensure_unique_id
  by_cases hmem : cand ∈ used
  · rw [if_pos hmem]
  · rw [if_neg hmem]

theorem v4f1Row_shape (cs : V4f1Cols) (idx : Nat) (r : List (Option String))
    (used : List String) :
    ∃ cand, (v4f1Row cs idx r used).1.id = (ensure_unique_id cand used).1 ∧
      (v4f1Row cs idx r used).2 = (ensure_unique_id cand used).2 :=
  ⟨_, rfl, rfl⟩

theorem v4f1Loop_nodup (cs : V4f1Cols) :
    ∀ (rows : List (Nat × List (Option String))) (used : List String)
      (out : List StepRec),
      (out.map StepRec.id).Nodup → (∀ s ∈ out, s.id ∈ used) →
      ((v4f1Loop cs rows used out).map StepRec.id).Nodup := by
  intro rows
  induction rows with
  | nil => intro used out h1 _; exact h1
  | cons pr rs ih =>
    intro used out h1 h2
    show ((if pr.2.all (fun x => x.isNone) then v4f1Loop cs rs used out
      else v4f1Loop cs rs (v4f1Row cs pr.1 pr.2 used).2
        (out ++ [(v4f1Row cs pr.1 pr.2 used).1])).map StepRec.id).Nodup
    by_cases hna : pr.2.all (fun x => x.isNone)
    · rw [if_pos hna]
      exact ih used out h1 h2
    · rw [if_neg hna]
      rcases v4f1Row_shape cs pr.1 pr.2 used with ⟨cand, hid, hused⟩
      apply ih
      · rw [List.map_append]
        simp only [List.map_cons, List.map_nil]
        rw [List.nodup_append]
        refine ⟨h1, List.nodup_singleton _, ?_⟩
        intro a ha hb
        simp only [List.mem_singleton] at hb
        rcases List.mem_map.mp ha with ⟨s, hs, hsi⟩
        have hmem2 : a ∈ used := by
          rw [← hsi]
          exact h2 s hs
        rw [hb, hid] at hmem2
        exact ensure_unique_not_mem cand used hmem2
      · intro s hs
        rw [hused, ensure_unique_used]
        rcases List.mem_append.mp hs with hs | hs
        · exact List.mem_cons_of_mem _ (h2 s hs)
        · simp only [List.mem_singleton] at hs
          rw [hs, hid]
          exact List.mem_cons_self _ _

/-! ## Occurrence and scanning lemmas for template injection -/

theorem prefix_marker_head (n : String) (s : List Char)
    (h : (markerL n).isPrefixOf s = true) : ∃ t, s = '\x7b' :: t := by
  cases s with
  | nil => simp [markerL, List.isPrefixOf] at h
  | cons c t =>
    simp only [markerL, List.isPrefixOf, Bool.and_eq_true, beq_iff_eq] at h
    exact ⟨t, by rw [h.1]⟩

theorem braceFreeL_iff (l : List Char) :
    braceFreeL l = true ↔ ∀ c ∈ l, ¬ c = '\x7b' ∧ ¬ c = '\x7d' := by
  simp [braceFreeL, List.all_eq_true]

theorem no_lbrace_head (y : List Char) :
    ∀ (z : List Char), braceFreeL z = true →
    ∀ i, i < z.length + 2 → ¬ ((z ++ '\x7d' :: '\x7d' :: y).drop i).head? = some '\x7b' := by
  intro z
  induction z with
  | nil =>
    intro _ i hi
    simp only [List.length_nil, Nat.zero_add] at hi
    cases i with
    | zero => simp
    | succ k =>
      cases k with
      | zero => simp
      | succ k' => omega
  | cons c z ih =>
    intro hbf i hi
    have hc := ((braceFreeL_iff _).mp hbf) c (List.mem_cons_self c z)
    have hz : braceFreeL z = true := by
      apply (braceFreeL_iff _).mpr
      intro e he
      exact ((braceFreeL_iff _).mp hbf) e (List.mem_cons_of_mem c he)
    cases i with
    | zero =>
      simp only [List.cons_append, List.drop_zero, List.head?_cons]
      intro he
      exact hc.1 (by simpa using he)
    | succ k =>
      simp only [List.cons_append, List.drop_succ_cons]
      apply ih hz k
      simp only [List.length_cons] at hi
      omega

theorem no_start_in_braceFree (x y : List Char) (n : String)
    (hbf : braceFreeL x = true) :
    ∀ i, i < x.length → (markerL n).isPrefixOf ((x ++ y).drop i) = false := by
  intro i hi
  rw [List.drop_append_of_le_length (Nat.le_of_lt hi)]
  cases hd : x.drop i with
  | nil =>
    have := congrArg List.length hd
    simp at this
    omega
  | cons c t =>
    apply Bool.eq_false_iff.mpr
    intro hpre
    rcases prefix_marker_head n _ hpre with ⟨t', ht'⟩
    simp only [List.cons_append] at ht'
    have hc : c = '\x7b' := (List.cons.injEq _ _ _ _ ▸ ht').1
    have hcx : c ∈ x := by
      have : c ∈ x.drop i := by
        rw [hd]
        exact List.mem_cons_self c t
      exact List.mem_of_mem_drop this
    have := List.all_eq_true.mp hbf c hcx
    simp only [Bool.and_eq_true, decide_eq_true_eq] at this
    exact this.1 hc

theorem bf_prefix_eq : ∀ (a b : List Char), braceFreeL a = true → braceFreeL b = true →
    ∀ (u v : List Char), (a ++ '\x7d' :: u).isPrefixOf (b ++ '\x7d' :: v) = true → a = b := by
  intro a
  induction a with
  | nil =>
    intro b hba hbb u v h
    cases b with
    | nil => rfl
    | cons c b' =>
      simp only [List.nil_append, List.cons_append, List.isPrefixOf,
        Bool.and_eq_true, beq_iff_eq] at h
      have hc := ((braceFreeL_iff _).mp hbb) c (List.mem_cons_self c b')
      exact absurd h.1.symm hc.2
  | cons c a' ih =>
    intro b hba hbb u v h
    have hca := ((braceFreeL_iff _).mp hba) c (List.mem_cons_self c a')
    have ha' : braceFreeL a' = true := by
      apply (braceFreeL_iff _).mpr
      intro e he
      exact ((braceFreeL_iff _).mp hba) e (List.mem_cons_of_mem c he)
    cases b with
    | nil =>
      simp only [List.cons_append, List.nil_append, List.isPrefixOf,
        Bool.and_eq_true, beq_iff_eq] at h
      exact absurd h.1 hca.2
    | cons d b' =>
      have hb' : braceFreeL b' = true := by
        apply (braceFreeL_iff _).mpr
        intro e he
        exact ((braceFreeL_iff _).mp hbb) e (List.mem_cons_of_mem d he)
      simp only [List.cons_append, List.isPrefixOf, Bool.and_eq_true, beq_iff_eq] at h
      have := ih b' ha' hb' u v (by simpa using h.2)
      rw [h.1, this]

theorem no_start_in_marker (m n : String) (y : List Char)
    (hm : braceFreeL m.data = true) (hn : braceFreeL n.data = true)
    (hne : ¬ m = n) :
    ∀ i, i < (markerL m).length →
      (markerL n).isPrefixOf ((markerL m ++ y).drop i) = false := by
  have hmlen : (markerL m).length = m.data.length + 4 := by
    simp [markerL]
  have hn' : markerL n = '\x7b' :: '\x7b' :: (n.data ++ '\x7d' :: '\x7d' :: []) := by
    simp [markerL]
  intro i hi
  apply Bool.eq_false_iff.mpr
  intro hpre
  match i with
  | 0 =>
    simp only [List.drop_zero] at hpre
    have hm0 : markerL m ++ y = '\x7b' :: '\x7b' :: (m.data ++ '\x7d' :: '\x7d' :: y) := by
      simp [markerL]
    rw [hm0, hn'] at hpre
    simp only [List.isPrefixOf, Bool.and_eq_true, beq_iff_eq] at hpre
    have heq := bf_prefix_eq n.data m.data hn hm ('\x7d' :: []) ('\x7d' :: y)
      (by simpa using hpre)
    exact hne (String.ext heq).symm
  | 1 =>
    have h1 : (markerL m ++ y).drop 1 = '\x7b' :: (m.data ++ '\x7d' :: '\x7d' :: y) := by
      simp [markerL]
    rw [h1, hn'] at hpre
    simp only [List.isPrefixOf, Bool.and_eq_true, beq_iff_eq] at hpre
    have hpre2 := hpre.2
    cases hmd : m.data with
    | nil =>
      rw [hmd] at hpre2
      simp [List.isPrefixOf] at hpre2
    | cons c md' =>
      rw [hmd] at hpre2
      simp only [List.cons_append, List.isPrefixOf, Bool.and_eq_true, beq_iff_eq] at hpre2
      have hc := ((braceFreeL_iff _).mp hm) c (by rw [hmd]; exact List.mem_cons_self _ _)
      exact hc.1 hpre2.1.symm
  | (k + 2) =>
    have h2 : (markerL m ++ y).drop (k + 2) = (m.data ++ '\x7d' :: '\x7d' :: y).drop k := by
      simp [markerL]
    rw [h2] at hpre
    rcases prefix_marker_head n _ hpre with ⟨t', ht'⟩
    have hk : k < m.data.length + 2 := by
      rw [hmlen] at hi
      omega
    apply no_lbrace_head y m.data hm k hk
    rw [ht']
    rfl

theorem replaceAll_skip (pat rep : List Char) (hp : pat ≠ []) :
    ∀ (x y : List Char),
      (∀ i, i < x.length → pat.isPrefixOf ((x ++ y).drop i) = false) →
      replaceAll (x ++ y) pat rep = x ++ replaceAll y pat rep := by
  intro x
  induction x with
  | nil => intro y _; rfl
  | cons c x' ih =>
    intro y h
    cases pat with
    | nil => exact absurd rfl hp
    | cons p ps =>
      show replaceAll (c :: (x' ++ y)) (p :: ps) rep = _
      rw [replaceAll]
      rw [if_neg]
      · rw [ih y (fun i hi => by
          have := h (i + 1) (by simp; omega)
          simpa using this)]
        rfl
      · have h0 := h 0 (by simp)
        simp only [List.drop_zero, List.cons_append] at h0
        exact Bool.eq_false_iff.mp h0

theorem replaceAll_hit (pat rep y : List Char) (hp : pat ≠ []) :
    replaceAll (pat ++ y) pat rep = rep ++ replaceAll y pat rep := by
  cases pat with
  | nil => exact absurd rfl hp
  | cons p ps =>
    have hcons : (p :: ps) ++ y = p :: (ps ++ y) := rfl
    rw [hcons, replaceAll]
    rw [if_pos]
    · congr 1
      have : ((p :: ps) ++ y).drop (p :: ps).length = y := List.drop_left _ _
      rw [← hcons]
      rw [this]
    · exact List.isPrefixOf_iff_prefix.mpr (List.prefix_append _ _)

theorem containsSub_skip (pat : List Char) :
    ∀ (x y : List Char),
      (∀ i, i < x.length → pat.isPrefixOf ((x ++ y).drop i) = false) →
      containsSub (x ++ y) pat = containsSub y pat := by
  intro x
  induction x with
  | nil => intro y _; rfl
  | cons c x' ih =>
    intro y h
    show (pat.isPrefixOf (c :: (x' ++ y)) || containsSub (x' ++ y) pat) = _
    have h0 := h 0 (by simp)
    simp only [List.drop_zero, List.cons_append] at h0
    rw [h0]
    rw [Bool.false_or]
    exact ih y (fun i hi => by
      have := h (i + 1) (by simp; omega)
      simpa using this)

theorem containsSub_append_right (pat x y : List Char)
    (h : containsSub y pat = true) : containsSub (x ++ y) pat = true := by
  induction x with
  | nil => exact h
  | cons c x' ih =>
    show (pat.isPrefixOf (c :: (x' ++ y)) || containsSub (x' ++ y) pat) = true
    rw [ih]
    simp

theorem containsSub_hit (pat y : List Char) (hp : pat ≠ []) :
    containsSub (pat ++ y) pat = true := by
  cases pat with
  | nil => exact absurd rfl hp
  | cons p ps =>
    show ((p :: ps).isPrefixOf ((p :: ps) ++ y) || _) = true
    rw [List.isPrefixOf_iff_prefix.mpr (List.prefix_append _ _)]
    simp

theorem containsSub_nil (pat : List Char) (hp : pat ≠ []) :
    containsSub [] pat = false := by
  cases pat with
  | nil => exact absurd rfl hp
  | cons p ps => rfl

/-! ## Block-level substitution lemmas -/

theorem marker_ne_nil (n : String) : markerL n ≠ [] := by
  simp [markerL]

theorem renderB_txt (s : List Char) (bs : List Blk) :
    renderB (.txt s :: bs) = s ++ renderB bs := rfl

theorem renderB_hole (n : String) (bs : List Blk) :
    renderB (.hole n :: bs) = markerL n ++ renderB bs := rfl

theorem all_tail {p : Blk → Bool} (b : Blk) (bs : List Blk)
    (h : (b :: bs).all p = true) : bs.all p = true := by
  simp only [List.all_cons, Bool.and_eq_true] at h
  exact h.2

theorem all_head {p : Blk → Bool} (b : Blk) (bs : List Blk)
    (h : (b :: bs).all p = true) : p b = true := by
  simp only [List.all_cons, Bool.and_eq_true] at h
  exact h.1

theorem replaceAll_renderB (n : String) (rep : List Char)
    (hn : braceFreeL n.data = true) :
    ∀ (bs : List Blk), bs.all blkWf = true →
      replaceAll (renderB bs) (markerL n) rep =
        renderB (bs.map (holeSubst n rep)) := by
  intro bs
  induction bs with
  | nil =>
    intro _
    show replaceAll [] (markerL n) rep = []
    cases hmk : markerL n with
    | nil => exact absurd hmk (marker_ne_nil n)
    | cons p ps => simp [replaceAll]
  | cons b bs ih =>
    intro hwf
    have hbwf := all_head b bs hwf
    have hbswf := all_tail b bs hwf
    cases b with
    | txt s =>
      rw [renderB_txt]
      rw [replaceAll_skip (markerL n) rep (marker_ne_nil n) s (renderB bs)
        (no_start_in_braceFree s (renderB bs) n hbwf)]
      rw [ih hbswf]
      rfl
    | hole m =>
      by_cases hmn : m = n
      · subst hmn
        rw [renderB_hole]
        rw [replaceAll_hit (markerL m) rep (renderB bs) (marker_ne_nil m)]
        rw [ih hbswf]
        simp only [List.map_cons, holeSubst, if_pos rfl]
        rfl
      · have hmbf : braceFreeL m.data = true := by
          simp only [blkWf, Bool.and_eq_true] at hbwf
          exact hbwf.1
        rw [renderB_hole]
        rw [replaceAll_skip (markerL n) rep (marker_ne_nil n) (markerL m) (renderB bs)
          (no_start_in_marker m n (renderB bs) hmbf hn hmn)]
        rw [ih hbswf]
        simp only [List.map_cons, holeSubst, if_neg hmn]
        rfl

theorem contains_renderB_pos (n : String) :
    ∀ bs : List Blk, Blk.hole n ∈ bs →
      containsSub (renderB bs) (markerL n) = true := by
  intro bs
  induction bs with
  | nil => intro h; cases h
  | cons b bs ih =>
    intro h
    rcases List.mem_cons.mp h with h1 | h2
    · rw [← h1, renderB_hole]
      exact containsSub_hit (markerL n) (renderB bs) (marker_ne_nil n)
    · cases b with
      | txt s =>
        rw [renderB_txt]
        exact containsSub_append_right (markerL n) s (renderB bs) (ih h2)
      | hole m =>
        rw [renderB_hole]
        exact containsSub_append_right (markerL n) (markerL m) (renderB bs) (ih h2)

theorem contains_renderB_neg (n : String) (hn : braceFreeL n.data = true) :
    ∀ bs : List Blk, bs.all blkWf = true → Blk.hole n ∉ bs →
      containsSub (renderB bs) (markerL n) = false := by
  intro bs
  induction bs with
  | nil => intro _ _; exact containsSub_nil (markerL n) (marker_ne_nil n)
  | cons b bs ih =>
    intro hwf hno
    have hbwf := all_head b bs hwf
    have hbswf := all_tail b bs hwf
    have hnotail : Blk.hole n ∉ bs := fun h => hno (List.mem_cons_of_mem b h)
    cases b with
    | txt s =>
      rw [renderB_txt]
      rw [containsSub_skip (markerL n) s (renderB bs)
        (no_start_in_braceFree s (renderB bs) n hbwf)]
      exact ih hbswf hnotail
    | hole m =>
      have hmn : ¬ m = n := by
        intro h
        exact hno (by rw [h]; exact List.mem_cons_self _ _)
      have hmbf : braceFreeL m.data = true := by
        simp only [blkWf, Bool.and_eq_true] at hbwf
        exact hbwf.1
      rw [renderB_hole]
      rw [containsSub_skip (markerL n) (markerL m) (renderB bs)
        (no_start_in_marker m n (renderB bs) hmbf hn hmn)]
      exact ih hbswf hnotail

theorem blkWf_holeSubst (n : String) (rep : List Char) (hrep : braceFreeL rep = true)
    (b : Blk) (h : blkWf b = true) : blkWf (holeSubst n rep b) = true := by
  cases b with
  | txt s => exact h
  | hole m =>
    simp only [holeSubst]
    by_cases hmn : m = n
    · rw [if_pos hmn]
      exact hrep
    · rw [if_neg hmn]
      exact h

theorem all_blkWf_map (n : String) (rep : List Char) (hrep : braceFreeL rep = true)
    (bs : List Blk) (h : bs.all blkWf = true) :
    (bs.map (holeSubst n rep)).all blkWf = true := by
  rw [List.all_map]
  apply List.all_eq_true.mpr
  intro b hb
  exact blkWf_holeSubst n rep hrep b (List.all_eq_true.mp h b hb)

theorem hole_mem_map_holeSubst (n m : String) (rep : List Char) (bs : List Blk)
    (h : Blk.hole m ∈ bs.map (holeSubst n rep)) : Blk.hole m ∈ bs ∧ ¬ m = n := by
  rcases List.mem_map.mp h with ⟨b, hb, hbe⟩
  cases b with
  | txt s => simp [holeSubst] at hbe
  | hole m' =>
    simp only [holeSubst] at hbe
    by_cases hm' : m' = n
    · rw [if_pos hm'] at hbe
      cases hbe
    · rw [if_neg hm'] at hbe
      have : m' = m := by
        injection hbe
      constructor
      · rw [← this]
        exact hb
      · rw [← this]
        exact hm'

/-! ## Computation lemmas for the assignment-pattern search -/

theorem takeWhile_ws_append (w : List Char) (c : Char) (r : List Char)
    (hw : ∀ x ∈ w, isPyWs x = true) (hc : isPyWs c = false) :
    (w ++ c :: r).takeWhile isPyWs = w := by
  induction w with
  | nil =>
    simp only [List.nil_append, List.takeWhile_cons, hc]
    simp
  | cons x w ih =>
    have hx : isPyWs x = true := hw x (List.mem_cons_self _ _)
    have ih' := ih (fun y hy => hw y (List.mem_cons_of_mem x hy))
    simp only [List.cons_append, List.takeWhile_cons, hx, ih']
    simp

theorem dropWhile_ws_append (w : List Char) (c : Char) (r : List Char)
    (hw : ∀ x ∈ w, isPyWs x = true) (hc : isPyWs c = false) :
    (w ++ c :: r).dropWhile isPyWs = c :: r := by
  induction w with
  | nil =>
    simp only [List.nil_append, List.dropWhile_cons, hc]
    simp
  | cons x w ih =>
    have hx : isPyWs x = true := hw x (List.mem_cons_self _ _)
    have ih' := ih (fun y hy => hw y (List.mem_cons_of_mem x hy))
    simp only [List.cons_append, List.dropWhile_cons, hx, ih']
    simp

theorem matchAssignAt_steps (w1 w2 w3 tail : List Char) (hw1 : w1 ≠ [])
    (h1 : ∀ c ∈ w1, isPyWs c = true) (h2 : ∀ c ∈ w2, isPyWs c = true)
    (h3 : ∀ c ∈ w3, isPyWs c = true) :
    matchAssignAt "steps".data '['
      ('l' :: 'e' :: 't' ::
        (w1 ++ 's' :: 't' :: 'e' :: 'p' :: 's' :: (w2 ++ '=' :: (w3 ++ '[' :: tail)))) =
      some ('l' :: 'e' :: 't' ::
        (w1 ++ "steps".data ++ w2 ++ '=' :: w3), tail) := by
  have hsd : "steps".data = ['s', 't', 'e', 'p', 's'] := rfl
  simp only [matchAssignAt, hsd]
  rw [takeWhile_ws_append w1 's' _ h1 (by decide)]
  rw [dropWhile_ws_append w1 's' _ h1 (by decide)]
  rw [if_neg hw1]
  rw [if_pos (show (['s','t','e','p','s'] : List Char).isPrefixOf
      ('s' :: 't' :: 'e' :: 'p' :: 's' :: (w2 ++ '=' :: (w3 ++ '[' :: tail))) = true from
    List.isPrefixOf_iff_prefix.mpr ⟨w2 ++ '=' :: (w3 ++ '[' :: tail), rfl⟩)]
  simp only [List.length_cons, List.length_nil, List.drop_succ_cons, List.drop_zero]
  rw [takeWhile_ws_append w2 '=' _ h2 (by decide)]
  rw [dropWhile_ws_append w2 '=' _ h2 (by decide)]
  simp only []
  rw [takeWhile_ws_append w3 '[' _ h3 (by decide)]
  rw [dropWhile_ws_append w3 '[' _ h3 (by decide)]
  simp [List.append_assoc]

theorem closeAt_ws (w rest : List Char) (hw : ∀ c ∈ w, isPyWs c = true) :
    closeAt (w ++ ';' :: rest) = some (w, rest) := by
  simp only [closeAt]
  rw [takeWhile_ws_append w ';' rest hw (by decide)]
  rw [dropWhile_ws_append w ';' rest hw (by decide)]
  rfl

theorem findCloseC_mid (cC : Char) (mid w4 rest : List Char)
    (hmid : cC ∉ mid) (hw4 : ∀ c ∈ w4, isPyWs c = true) :
    findCloseC cC (mid ++ cC :: (w4 ++ ';' :: rest)) = some (mid, w4, rest) := by
  induction mid with
  | nil =>
    simp only [List.nil_append, findCloseC, if_pos rfl]
    rw [closeAt_ws w4 rest hw4]
    simp
  | cons m mid ih =>
    have hm : ¬ m = cC := by
      intro h
      exact hmid (by rw [h]; exact List.mem_cons_self _ _)
    have hmid' : cC ∉ mid := fun h => hmid (List.mem_cons_of_mem m h)
    simp only [List.cons_append, findCloseC, List.append_eq]
    rw [if_neg hm]
    rw [ih hmid']

theorem searchAssignAux_prev_irrel (name : List Char) (oC cC : Char) :
    ∀ (s : List Char) (p q : Option Char),
      searchAssignAux name oC cC false p s = searchAssignAux name oC cC false q s := by
  intro s
  cases s with
  | nil => intro p q; rfl
  | cons c t =>
    intro p q
    simp only [searchAssignAux, Bool.not_false, Bool.true_or]

theorem searchSteps_here (w1 w2 w3 mid w4 rest : List Char) (prev : Option Char)
    (hw1 : w1 ≠ []) (h1 : ∀ c ∈ w1, isPyWs c = true)
    (h2 : ∀ c ∈ w2, isPyWs c = true) (h3 : ∀ c ∈ w3, isPyWs c = true)
    (h4 : ∀ c ∈ w4, isPyWs c = true) (hmid : ']' ∉ mid) :
    searchAssignAux "steps".data '[' ']' false prev
      ('l' :: 'e' :: 't' ::
        (w1 ++ 's' :: 't' :: 'e' :: 'p' :: 's' ::
          (w2 ++ '=' :: (w3 ++ '[' :: (mid ++ ']' :: (w4 ++ ';' :: rest)))))) =
      some ([], 'l' :: 'e' :: 't' :: (w1 ++ "steps".data ++ w2 ++ '=' :: w3),
        mid, w4, rest) := by
  simp only [searchAssignAux, Bool.not_false, Bool.true_or, eq_self_iff_true, if_true]
  rw [matchAssignAt_steps w1 w2 w3 _ hw1 h1 h2 h3]
  simp only []
  rw [findCloseC_mid ']' mid w4 rest hmid h4]

theorem searchSteps_skip (y : List Char) :
    ∀ (a : List Char),
      (∀ i, i < a.length → stepsAttemptAt ((a ++ y).drop i) = false) →
      searchStepsV4f (a ++ y) =
        (match searchAssignAux "steps".data '[' ']' false none y with
         | some (b, g1, ins, w, rest) => some (a ++ b, g1, ins, w, rest)
         | none => none) := by
  intro a
  induction a with
  | nil =>
    intro _
    show searchAssignAux "steps".data '[' ']' false none y = _
    cases hy : searchAssignAux "steps".data '[' ']' false none y with
    | none => rfl
    | some q =>
      obtain ⟨b, g1, ins, w, rest⟩ := q
      simp
  | cons c a ih =>
    intro h
    have h0 : stepsAttemptAt (c :: (a ++ y)) = false := by
      have := h 0 (by simp)
      simpa using this
    have htail : ∀ i, i < a.length → stepsAttemptAt ((a ++ y).drop i) = false := by
      intro i hi
      have := h (i + 1) (by simp; omega)
      simpa using this
    show searchAssignAux "steps".data '[' ']' false none (c :: (a ++ y)) = _
    simp only [searchAssignAux, Bool.not_false, Bool.true_or, eq_self_iff_true, if_true]
    simp only [stepsAttemptAt] at h0
    have hhere : (match matchAssignAt "steps".data '[' (c :: (a ++ y)) with
        | some (g1, r) =>
          match findCloseC ']' r with
          | some (ins, w, rest) => some (g1, ins, w, rest)
          | none => none
        | none => none) =
        (none : Option (List Char × List Char × List Char × List Char)) := by
      cases hm : matchAssignAt "steps".data '[' (c :: (a ++ y)) with
      | none => rfl
      | some q =>
        obtain ⟨g1, r⟩ := q
        rw [hm] at h0
        simp only [] at h0
        cases hf : findCloseC ']' r with
        | none => simp [hf]
        | some q2 =>
          rw [hf] at h0
          simp at h0
    rw [hhere]
    rw [searchAssignAux_prev_irrel "steps".data '[' ']' (a ++ y) (some c) none]
    have hih := ih htail
    rw [show searchAssignAux "steps".data '[' ']' false none (a ++ y) =
        searchStepsV4f (a ++ y) from rfl]
    rw [hih]
    cases searchAssignAux "steps".data '[' ']' false none y with
    | none => rfl
    | some q =>
      obtain ⟨b, g1, ins, w, rest⟩ := q
      rfl

theorem searchStepsV4f_eq (a w1 w2 w3 mid w4 rest : List Char)
    (hw1 : w1 ≠ []) (h1 : ∀ c ∈ w1, isPyWs c = true)
    (h2 : ∀ c ∈ w2, isPyWs c = true) (h3 : ∀ c ∈ w3, isPyWs c = true)
    (h4 : ∀ c ∈ w4, isPyWs c = true) (hmid : ']' ∉ mid)
    (ha : ∀ i, i < a.length →
      stepsAttemptAt ((a ++ ('l' :: 'e' :: 't' ::
        (w1 ++ 's' :: 't' :: 'e' :: 'p' :: 's' ::
          (w2 ++ '=' :: (w3 ++ '[' :: (mid ++ ']' :: (w4 ++ ';' :: rest))))))).drop i)
        = false) :
    searchStepsV4f (a ++ ('l' :: 'e' :: 't' ::
        (w1 ++ 's' :: 't' :: 'e' :: 'p' :: 's' ::
          (w2 ++ '=' :: (w3 ++ '[' :: (mid ++ ']' :: (w4 ++ ';' :: rest))))))) =
      some (a, 'l' :: 'e' :: 't' :: (w1 ++ "steps".data ++ w2 ++ '=' :: w3),
        mid, w4, rest) := by
  rw [searchSteps_skip _ a ha]
  rw [searchSteps_here w1 w2 w3 mid w4 rest none hw1 h1 h2 h3 h4 hmid]
  simp

/-! ## Replacement-template parsing lemmas -/

theorem parseReplToksF_lits (j : List Char) (hj : '\\' ∉ j) :
    ∀ (f : Nat) (t : List Char),
      parseReplToksF (j.length + f) (j ++ t) =
        (parseReplToksF f t).map (fun out => j.map ReplTok.lit ++ out) := by
  induction j with
  | nil =>
    intro f t
    simp only [List.length_nil, Nat.zero_add, List.nil_append, List.map_nil]
    cases parseReplToksF f t with
    | error e => rfl
    | ok out => simp [Except.map]
  | cons c j ih =>
    intro f t
    have hc : ¬ c = '\\' := by
      intro h
      exact hj (by rw [h]; exact List.mem_cons_self _ _)
    have hj' : '\\' ∉ j := fun h => hj (List.mem_cons_of_mem c h)
    have hlen : (c :: j).length + f = (j.length + f) + 1 := by
      simp only [List.length_cons]
      omega
    rw [hlen]
    show parseReplToksF ((j.length + f) + 1) (c :: (j ++ t)) = _
    rw [parseReplToksF]
    rw [if_neg hc]
    rw [ih hj' f t]
    cases parseReplToksF f t with
    | error e => rfl
    | ok out => simp [Except.map]

theorem parseRepl_std (j : List Char) (hj : '\\' ∉ j)
    (hjd : ∀ c ∈ j.take 1, isAsciiDigit c = false) :
    parseReplToks ('\\' :: '1' :: (j ++ ['\\', '3'])) =
      .ok (.grp 1 :: (j.map ReplTok.lit ++ [.grp 3])) := by
  have hesc : parseEscStep ('1' :: (j ++ ['\\', '3'])) =
      .ok ([.grp 1], j ++ ['\\', '3']) := by
    cases j with
    | nil => rfl
    | cons c t =>
      have hc : isAsciiDigit c = false := hjd c (by simp)
      simp only [List.cons_append, parseEscStep]
      rw [if_neg (show ¬ ('1' : Char) = '\\' by decide)]
      rw [if_neg (show ¬ ('1' : Char) = 'a' by decide)]
      rw [if_neg (show ¬ ('1' : Char) = 'b' by decide)]
      rw [if_neg (show ¬ ('1' : Char) = 'f' by decide)]
      rw [if_neg (show ¬ ('1' : Char) = 'n' by decide)]
      rw [if_neg (show ¬ ('1' : Char) = 'r' by decide)]
      rw [if_neg (show ¬ ('1' : Char) = 't' by decide)]
      rw [if_neg (show ¬ ('1' : Char) = 'v' by decide)]
      rw [if_neg (show ¬ ('1' : Char).isAlpha = true by decide)]
      rw [if_neg (show ¬ ('1' : Char) = '0' by decide)]
      rw [if_pos (show isAsciiDigit '1' = true by decide)]
      simp only [hc]
      simp
  have hlen : ('\\' :: '1' :: (j ++ ['\\', '3'])).length = (j.length + 3) + 1 := by
    simp only [List.length_cons, List.length_append]
    simp
  rw [parseReplToks, hlen]
  rw [parseReplToksF]
  rw [if_pos rfl]
  rw [hesc]
  have h3 : j.length + 3 = j.length + 2 + 1 := by omega
  rw [h3]
  have hback : parseReplToksF (j.length + 2) (['\\', '3'] : List Char) =
      .ok [.grp 3] := by
    cases hl : j.length + 2 with
    | zero => omega
    | succ m =>
      rw [parseReplToksF]
      rw [if_pos rfl]
      rw [show parseEscStep ['3'] = .ok ([.grp 3], []) from rfl]
      cases m with
      | zero => rfl
      | succ m2 => rfl
  have := parseReplToksF_lits j hj 2 ['\\', '3']
  rw [show j.length + 2 + 1 = j.length + (2 + 1) from rfl] at *
  simp only []
  rw [parseReplToksF_lits j hj (2 + 1) ['\\', '3']]
  have hb2 : parseReplToksF (2 + 1) (['\\', '3'] : List Char) = .ok [.grp 3] := rfl
  rw [hb2]
  simp [Except.map]

theorem expandToks_append (t1 t2 : List ReplTok) (g1 g2 g3 : List Char) :
    expandToks (t1 ++ t2) g1 g2 g3 =
      expandToks t1 g1 g2 g3 ++ expandToks t2 g1 g2 g3 := by
  simp [expandToks]

theorem expandToks_lits (j g1 g2 g3 : List Char) :
    expandToks (j.map ReplTok.lit) g1 g2 g3 = j := by
  induction j with
  | nil => rfl
  | cons c j ih =>
    simp only [List.map_cons, expandToks, List.flatMap_cons] at ih ⊢
    rw [ih]
    rfl

theorem expandToks_std (j g1 g2 g3 : List Char) :
    expandToks (.grp 1 :: (j.map ReplTok.lit ++ [.grp 3])) g1 g2 g3 =
      g1 ++ j ++ g3 := by
  have h1 : ReplTok.grp 1 :: (j.map ReplTok.lit ++ [.grp 3]) =
      [ReplTok.grp 1] ++ j.map ReplTok.lit ++ [.grp 3] := by simp
  rw [h1, expandToks_append, expandToks_append, expandToks_lits]
  simp [expandToks]

/-! ## The structural-fallback injection, end to end -/

theorem injectFallback (a w1 w2 w3 mid w4 rest j : List Char)
    (hnm : containsSub (a ++ ('l' :: 'e' :: 't' ::
        (w1 ++ 's' :: 't' :: 'e' :: 'p' :: 's' ::
          (w2 ++ '=' :: (w3 ++ '[' :: (mid ++ ']' :: (w4 ++ ';' :: rest)))))))
      (markerL "STEPS_JSON") = false)
    (hw1 : w1 ≠ []) (h1 : ∀ c ∈ w1, isPyWs c = true)
    (h2 : ∀ c ∈ w2, isPyWs c = true) (h3 : ∀ c ∈ w3, isPyWs c = true)
    (h4 : ∀ c ∈ w4, isPyWs c = true) (hmid : ']' ∉ mid)
    (ha : ∀ i, i < a.length →
      stepsAttemptAt ((a ++ ('l' :: 'e' :: 't' ::
        (w1 ++ 's' :: 't' :: 'e' :: 'p' :: 's' ::
          (w2 ++ '=' :: (w3 ++ '[' :: (mid ++ ']' :: (w4 ++ ';' :: rest))))))).drop i)
        = false)
    (hj : '\\' ∉ j) (hjd : ∀ c ∈ j.take 1, isAsciiDigit c = false) :
    injectSteps_v4f (a ++ ('l' :: 'e' :: 't' ::
        (w1 ++ 's' :: 't' :: 'e' :: 'p' :: 's' ::
          (w2 ++ '=' :: (w3 ++ '[' :: (mid ++ ']' :: (w4 ++ ';' :: rest))))))) j =
      .ok (a ++ ('l' :: 'e' :: 't' :: (w1 ++ "steps".data ++ w2 ++ '=' :: w3)) ++
        j ++ (w4 ++ ';' :: rest)) := by
  rw [injectSteps_v4f]
  rw [if_neg (by rw [hnm]; exact Bool.false_ne_true)]
  rw [searchStepsV4f_eq a w1 w2 w3 mid w4 rest hw1 h1 h2 h3 h4 hmid ha]
  simp only []
  rw [show ('\\' :: '1' :: j ++ ['\\', '3'] : List Char) =
    '\\' :: '1' :: (j ++ ['\\', '3']) from rfl]
  rw [parseRepl_std j hj hjd]
  simp only []
  rw [expandToks_std]
  simp [List.append_assoc]

theorem map_holeSubst_id (n : String) (rep : List Char) :
    ∀ bs : List Blk, Blk.hole n ∉ bs → bs.map (holeSubst n rep) = bs := by
  intro bs
  induction bs with
  | nil => intro _; rfl
  | cons b bs ih =>
    intro h
    have hb : holeSubst n rep b = b := by
      cases b with
      | txt s => rfl
      | hole m =>
        have hmn : ¬ m = n := by
          intro hmn
          exact h (by rw [hmn]; exact List.mem_cons_self _ _)
        simp [holeSubst, hmn]
    simp only [List.map_cons, hb]
    rw [ih (fun hm => h (List.mem_cons_of_mem b hm))]

theorem metaFold_renderB :
    ∀ (meta : List (String × String)) (bs : List Blk),
      bs.all blkWf = true →
      (∀ p ∈ meta, braceFreeL p.1.data = true ∧ braceFreeL p.2.data = true) →
      meta.foldl
        (fun h p =>
          if containsSub h (markerL p.1) then replaceAll h (markerL p.1) p.2.data else h)
        (renderB bs) =
      renderB (meta.foldl (fun l p => l.map (holeSubst p.1 p.2.data)) bs) := by
  intro meta
  induction meta with
  | nil => intro bs _ _; rfl
  | cons p meta ih =>
    intro bs hwf hbf
    have hp := hbf p (List.mem_cons_self _ _)
    have hbf' : ∀ q ∈ meta, braceFreeL q.1.data = true ∧ braceFreeL q.2.data = true :=
      fun q hq => hbf q (List.mem_cons_of_mem p hq)
    simp only [List.foldl_cons]
    by_cases hmem : Blk.hole p.1 ∈ bs
    · rw [if_pos (contains_renderB_pos p.1 bs hmem)]
      rw [replaceAll_renderB p.1 p.2.data hp.1 bs hwf]
      exact ih (bs.map (holeSubst p.1 p.2.data))
        (all_blkWf_map p.1 p.2.data hp.2 bs hwf) hbf'
    · rw [if_neg (by rw [contains_renderB_neg p.1 hp.1 bs hwf hmem]; exact
        Bool.false_ne_true)]
      rw [map_holeSubst_id p.1 p.2.data bs hmem]
      exact ih bs hwf hbf'

/-! # Claim theorems -/

/-- C2: within one built document no two step records share an `id` — the
issued identifiers are pairwise distinct for every input sheet — and two rows
whose id cell is both `"Step A"` come out as `step_a` and `step_a_2`. -/
theorem claim_C2 :
    (∀ (cols : List String) (rows : List (List (Option String))),
      ((load_steps_from_excel cols rows).map StepRec.id).Nodup) ∧
    (load_steps_from_excel ["StepID", "Title"]
        [[some "Step A", some "T1"], [some "Step A", some "T2"]]).map StepRec.id =
      ["step_a", "step_a_2"] := by
  constructor
  · intro cols rows
    have hpre : ((load_steps_pre cols rows).map StepRec.id).Nodup :=
      v4f1Loop_nodup (v4f1Cols cols) rows.enum [] [] (by simp) (by simp)
    have hperm : List.Perm ((load_steps_from_excel cols rows).map StepRec.id)
        ((load_steps_pre cols rows).map StepRec.id) :=
      (pySort_perm _ _).map StepRec.id
    exact hperm.nodup_iff.mpr hpre
  · decide

/-- C7: the identifier sanitizer `slugify_step_id` is idempotent: sanitizing
an already-sanitized identifier changes nothing. -/
theorem claim_C7 (s : String) :
    slugify_step_id (slugify_step_id s) = slugify_step_id s := by
  show (⟨slugifyL (slugify_step_id s).data⟩ : String) = ⟨slugifyL s.data⟩
  have hdata : (slugify_step_id s).data = slugifyL s.data := rfl
  rw [hdata]
  apply congrArg String.mk
  rcases slugify_good s.data with h | ⟨h1, h2, h3, h4⟩
  · rw [h]
    exact slugifyL_eq_nil [] rfl
  · exact slugify_fixed _ h1 h2 h3 h4

/-- C6: both step loaders sort the extracted steps by `order` with Python's
stable sort: the result is non-decreasing in `order`, and for every order
value the sub-sequence of steps with that order equals the one of the
pre-sort extraction (original row order). -/
theorem claim_C6 :
    (∀ rows : List (List (Option String)),
      (read_steps rows).Pairwise (fun a b => a.order ≤ b.order) ∧
      ∀ k : Int, (read_steps rows).filter (fun s => decide (s.order = k)) =
        (readStepsPre rows).filter (fun s => decide (s.order = k))) ∧
    (∀ (cols : List String) (rows : List (List (Option String))),
      (load_steps_from_excel cols rows).Pairwise (fun a b => a.order ≤ b.order) ∧
      ∀ k : Int, (load_steps_from_excel cols rows).filter (fun s => decide (s.order = k)) =
        (load_steps_pre cols rows).filter (fun s => decide (s.order = k))) := by
  constructor
  · intro rows
    exact ⟨pySort_sorted _ _, fun k => pySort_filter _ _ k⟩
  · intro cols rows
    exact ⟨pySort_sorted _ _, fun k => pySort_filter _ _ k⟩

/-- C4: the chosen steps-header row is the first row in the leading window of
`min 30 (len rows)` rows attaining the maximal count of cells resolving to a
canonical step column, accepted only with at least 3 hits; when no row in the
window reaches 3 hits, no header is reported. -/
theorem claim_C4 (rows : List (List (Option String))) :
    (∀ i, find_steps_header_row rows = some i →
      i < min 30 rows.length ∧
      3 ≤ stepHits (rows.getD i []) ∧
      (∀ j, j < min 30 rows.length → stepHits (rows.getD j []) ≤ stepHits (rows.getD i [])) ∧
      (∀ j, j < i → stepHits (rows.getD j []) < stepHits (rows.getD i []))) ∧
    (find_steps_header_row rows = none →
      ∀ j, j < min 30 rows.length → stepHits (rows.getD j []) < 3) := by
  obtain ⟨hmax, hnone, hsome⟩ :=
    scanBestBy_inv (fun i => stepHits (rows.getD i [])) (min 30 rows.length)
  constructor
  · intro i hi
    simp only [find_steps_header_row] at hi
    split at hi
    · cases hi
    · rename_i bi hst
      split at hi
      · cases hi
      · rename_i h3
        simp only [Option.some.injEq] at hi
        subst hi
        rcases hsome bi hst with ⟨h1, h2, _, h4⟩
        refine ⟨h1, ?_, ?_, h4⟩
        · rw [h2]
          exact Nat.le_of_not_lt h3
        · intro j hj
          rw [h2]
          exact hmax j hj
  · intro hi j hj
    simp only [find_steps_header_row] at hi
    split at hi
    · rename_i hst
      have h0 := hnone hst
      have := hmax j hj
      omega
    · rename_i bi hst
      split at hi
      · rename_i h3
        have := hmax j hj
        omega
      · cases hi

/-- C4 witness: a sheet with a banner row then a real header row, and a sheet
with no header at all. -/
theorem claim_C4_witness :
    3 ≤ stepHits ([[some "banner"],
        [some "Order", some "Title", some "Command"], [some "1"]].getD 1 []) ∧
    (∀ j, j < min 30 1 → stepHits (([[some "x"]] :
        List (List (Option String))).getD j []) < 3) :=
  ⟨((claim_C4 [[some "banner"], [some "Order", some "Title", some "Command"],
      [some "1"]]).1 1 (by decide)).2.1,
   (claim_C4 [[some "x"]]).2 (by decide)⟩

/-- C5: for every header input, the assembled `sopInfo` contains exactly the
canonical header keys (none missing), and any canonical key to which no input
entry resolves carries its documented default value. -/
theorem claim_C5 (hd : List (String × String)) (k d : String)
    (hmem : (k, d) ∈ sopBase) :
    (build_sopinfo hd).map Prod.fst = sopBase.map Prod.fst ∧
    ((∀ p ∈ hd, sopNormTarget p.1 ≠ some k) → dget (build_sopinfo hd) k = some d) := by
  refine ⟨keys_build_sopinfo hd, fun habs => ?_⟩
  rw [build_sopinfo_get hd k d hmem, lastWrite_none hd k habs]

/-- C5 witness: a header input mentioning only an unrecognised key leaves
`runLabel` at its default (the empty string). -/
theorem claim_C5_witness :
    (build_sopinfo [("foo", "bar")]).map Prod.fst = sopBase.map Prod.fst ∧
    dget (build_sopinfo [("foo", "bar")]) "runLabel" = some "" := by
  have h := claim_C5 [("foo", "bar")] "runLabel" "" (by decide)
  exact ⟨h.1, h.2 (by decide)⟩

/-- C10: a canonical key whose last resolving input entry is blank gets its
documented default, exactly as if absent; and a key only ever differs from
its default through a non-empty input value. -/
theorem claim_C10 (hd : List (String × String)) (k d : String)
    (hmem : (k, d) ∈ sopBase) :
    (lastWrite hd k = some "" → dget (build_sopinfo hd) k = some d) ∧
    (∀ v, dget (build_sopinfo hd) k = some v →
      v = d ∨ (lastWrite hd k = some v ∧ v ≠ "")) := by
  constructor
  · intro hw
    rw [build_sopinfo_get hd k d hmem, hw]
    simp
  · intro v hv
    rw [build_sopinfo_get hd k d hmem] at hv
    cases hlw : lastWrite hd k with
    | none =>
      rw [hlw] at hv
      simp only [Option.some.injEq] at hv
      exact Or.inl hv.symm
    | some w =>
      rw [hlw] at hv
      have hv' : (if w = "" then d else w) = v := by simpa using hv
      by_cases hw : w = ""
      · left
        rw [if_pos hw] at hv'
        exact hv'.symm
      · right
        rw [if_neg hw] at hv'
        refine ⟨?_, ?_⟩
        · rw [hv']
        · rw [← hv']
          exact hw

/-- C10 witness: a blank `Run Label` entry (resolving to canonical key
`runLabel`) yields the default, and `repo` never leaves its default without a
non-empty write. -/
theorem claim_C10_witness :
    dget (build_sopinfo [("Run Label", "  ")]) "runLabel" = some "" := by
  exact (claim_C10 [("Run Label", "  ")] "runLabel" "" (by decide)).1 (by decide)

/-- C8 counterexample: one concrete header sheet where both layout strategies
resolve the canonical key `id` (paired-columns via the raw keys `id` and
`sop id`, row-transposed via `id` ↦ `"B"`), yet the assembled value is the
paired-columns value `"C"`, not the row-transposed `"B"`. -/
theorem claim_C8_cex :
    read_header_key_value
        [[some "Key", some "Value"], [some "id", some "A"], [some "sop id", some "C"],
         [some "name", some "entity", some "id"], [some "X", some "Y", some "B"]] =
      [("id", "A"), ("sop id", "C"), ("name", "entity"), ("X", "Y")] ∧
    read_header_row_values
        [[some "Key", some "Value"], [some "id", some "A"], [some "sop id", some "C"],
         [some "name", some "entity", some "id"], [some "X", some "Y", some "B"]] =
      [("name", "X"), ("entity", "Y"), ("id", "B")] ∧
    dget (build_sopinfo (mergeHeaderData
        (read_header_key_value
          [[some "Key", some "Value"], [some "id", some "A"], [some "sop id", some "C"],
           [some "name", some "entity", some "id"], [some "X", some "Y", some "B"]])
        (read_header_row_values
          [[some "Key", some "Value"], [some "id", some "A"], [some "sop id", some "C"],
           [some "name", some "entity", some "id"], [some "X", some "Y", some "B"]]))) "id" =
      some "C" ∧ ("C" : String) ≠ "B" := by
  refine ⟨by decide, by decide, by decide, by decide⟩

/-- C8 (amended): the row-transposed value for a canonical key is the one
assembled, provided every paired-columns raw key resolving to that canonical
key is the canonical spelling itself (otherwise a later synonym spelling in
the merged dict wins, as in the counterexample). -/
theorem claim_C8 (kv rv : List (String × String)) (k B : String)
    (hck : canonical_header_key k = some k)
    (hrvB : dget rv k = some B)
    (hBs : pyStrip B = B) (hB : B ≠ "")
    (hrvN : (rv.map Prod.fst).Nodup)
    (hkv : ∀ k' ∈ kv.map Prod.fst, sopNormTarget k' = some k → k' = k)
    (hrv : ∀ k' ∈ rv.map Prod.fst, sopNormTarget k' = some k → k' = k) :
    dget (build_sopinfo (mergeHeaderData kv rv)) k = some B := by
  have hkt : sopNormTarget k = some k := by
    unfold sopNormTarget
    rw [hck]
  rcases canonical_mem_base k k hck with ⟨d, hd⟩
  have hn0 : ((dictUpdate [] kv).map Prod.fst).Nodup :=
    keys_dictUpdate kv [] (by simp)
  have hnm : ((mergeHeaderData kv rv).map Prod.fst).Nodup :=
    keys_dictUpdate rv (dictUpdate [] kv) hn0
  have hco : ∀ p ∈ mergeHeaderData kv rv, sopNormTarget p.1 = some k → p.1 = k := by
    intro p hpm hpt
    rcases mem_dictUpdate rv (dictUpdate [] kv) p hpm with h1 | h1
    · rcases mem_dictUpdate kv [] p h1 with h2 | h2
      · simp at h2
      · exact hkv p.1 h2 hpt
    · exact hrv p.1 h1 hpt
  have hdg : dget (mergeHeaderData kv rv) k = some B := by
    unfold mergeHeaderData
    rw [dget_dictUpdate rv (dictUpdate [] kv) k,
      dgetLast_nodup rv k hrvN, hrvB]
  have hlw : lastWrite (mergeHeaderData kv rv) k = some B := by
    rw [lastWrite_unique k hkt (mergeHeaderData kv rv) hnm hco, hdg]
    simp [hBs]
  rw [build_sopinfo_get (mergeHeaderData kv rv) k d hd, hlw]
  simp [hB]

/-- C8 witness: with the canonical spelling on both sides the row-transposed
value wins. -/
theorem claim_C8_witness :
    dget (build_sopinfo (mergeHeaderData [("id", "A")] [("id", "B")])) "id" = some "B" := by
  exact claim_C8 [("id", "A")] [("id", "B")] "id" "B" (by decide) (by decide) (by decide)
    (by decide) (by decide) (by decide) (by decide)

/-- C1: if the template contains neither the STEPS_JSON placeholder marker nor
a structural `let steps = [...]` assignment, `_inject_steps` of
`checklist_builder_v4f_v1a.py` fails with an error — and so does the whole
`apply_template`, so no output text exists to be written; likewise `inject` of
`checklist_builder_v5.py` raises when its steps-assignment pattern is absent. -/
theorem claim_C1 :
    (∀ html sj : List Char,
       containsSub html (markerL "STEPS_JSON") = false →
       searchStepsV4f html = none →
       (∃ e, injectSteps_v4f html sj = .error e) ∧
       (∀ meta, ∃ e, apply_template_v4f html sj meta = .error e)) ∧
    (∀ t sopJs stepsJs : List Char,
       searchStepsV5 t = none →
       ∃ e, inject_v5 t sopJs stepsJs = .error e) := by
  constructor
  · intro html sj h1 h2
    have he : injectSteps_v4f html sj = .error
        "Template has no STEPS_JSON placeholder and no let steps block to replace." := by
      rw [injectSteps_v4f]
      rw [if_neg (by rw [h1]; exact Bool.false_ne_true)]
      rw [h2]
    constructor
    · exact ⟨_, he⟩
    · intro meta
      refine ⟨"Template has no STEPS_JSON placeholder and no let steps block to replace.", ?_⟩
      rw [apply_template_v4f, he]
  · intro t sopJs stepsJs h
    by_cases hs : (searchSopInfoV5 t).isNone
    · refine ⟨"Template missing sopInfo assignment", ?_⟩
      rw [inject_v5, if_pos hs]
    · refine ⟨"Template missing steps assignment", ?_⟩
      rw [inject_v5, if_neg hs, if_pos (by rw [h]; rfl)]

/-- C1 witness: a template with no marker and no steps assignment makes both
injectors fail. -/
theorem claim_C1_witness :
    (∃ e, injectSteps_v4f "hello world".data "[]".data = Except.error e) ∧
    (∃ e, inject_v5 "plain text".data "S".data "T".data = Except.error e) :=
  ⟨(claim_C1.1 "hello world".data "[]".data (by decide) (by decide)).1,
   claim_C1.2 "plain text".data "S".data "T".data (by decide)⟩

/-- C9 counterexample: a template holding two steps-data patterns does not
make either builder fail — both succeed, replacing only the first pattern and
leaving the second verbatim. No MalformedTemplateMarker condition exists in
the code. -/
theorem claim_C9_cex :
    injectSteps_v4f "a let steps = [1]; b let steps = [2]; c".data "[9]".data =
      .ok "a let steps = [9]; b let steps = [2]; c".data ∧
    inject_v5 "let sopInfo = \x7b\x7d; let steps = [1]; let steps = [2];".data
        "S".data "T".data =
      .ok "let sopInfo = S; let steps = T; let steps = [2];".data :=
  ⟨rfl, rfl⟩

/-- C9 (amended): with a second `let steps = [...]` pattern present in the
text after the first one, `_inject_steps` still succeeds, substituting the
value region of the first pattern only and keeping the remainder — second
pattern included — verbatim. -/
theorem claim_C9 (a w1 w2 w3 mid w4 rest j : List Char)
    (hnm : containsSub (a ++ ('l' :: 'e' :: 't' ::
        (w1 ++ 's' :: 't' :: 'e' :: 'p' :: 's' ::
          (w2 ++ '=' :: (w3 ++ '[' :: (mid ++ ']' :: (w4 ++ ';' :: rest)))))))
      (markerL "STEPS_JSON") = false)
    (hw1 : w1 ≠ []) (h1 : ∀ c ∈ w1, isPyWs c = true)
    (h2 : ∀ c ∈ w2, isPyWs c = true) (h3 : ∀ c ∈ w3, isPyWs c = true)
    (h4 : ∀ c ∈ w4, isPyWs c = true) (hmid : ']' ∉ mid)
    (ha : ∀ i, i < a.length →
      stepsAttemptAt ((a ++ ('l' :: 'e' :: 't' ::
        (w1 ++ 's' :: 't' :: 'e' :: 'p' :: 's' ::
          (w2 ++ '=' :: (w3 ++ '[' :: (mid ++ ']' :: (w4 ++ ';' :: rest))))))).drop i)
        = false)
    (hj : '\\' ∉ j) (hjd : ∀ c ∈ j.take 1, isAsciiDigit c = false)
    (hsecond : (searchStepsV4f rest).isSome = true) :
    injectSteps_v4f (a ++ ('l' :: 'e' :: 't' ::
        (w1 ++ 's' :: 't' :: 'e' :: 'p' :: 's' ::
          (w2 ++ '=' :: (w3 ++ '[' :: (mid ++ ']' :: (w4 ++ ';' :: rest))))))) j =
      .ok (a ++ ('l' :: 'e' :: 't' :: (w1 ++ "steps".data ++ w2 ++ '=' :: w3)) ++
        j ++ (w4 ++ ';' :: rest)) :=
  injectFallback a w1 w2 w3 mid w4 rest j hnm hw1 h1 h2 h3 h4 hmid ha hj hjd

/-- C9 witness: the two-pattern template of the counterexample instantiates
the amended statement. -/
theorem claim_C9_witness :
    (searchStepsV4f " b let steps = [2]; c".data).isSome = true ∧
    injectSteps_v4f ("a ".data ++ ('l' :: 'e' :: 't' ::
        ([' '] ++ 's' :: 't' :: 'e' :: 'p' :: 's' ::
          ([' '] ++ '=' :: ([' '] ++ '[' :: (['1'] ++ ']' ::
            ([] ++ ';' :: " b let steps = [2]; c".data))))))) "[9]".data =
      .ok ("a ".data ++ ('l' :: 'e' :: 't' ::
          ([' '] ++ "steps".data ++ [' '] ++ '=' :: [' '])) ++
        "[9]".data ++ ([] ++ ';' :: " b let steps = [2]; c".data)) :=
  ⟨by decide,
   claim_C9 "a ".data [' '] [' '] [' '] ['1'] [] " b let steps = [2]; c".data
     "[9]".data (by decide) (by decide) (by decide) (by decide) (by decide)
     (by decide) (by decide) (by decide) (by decide) (by decide) (by decide)⟩

/-- C3: injection is a frame operation. With every declared marker present in
a brace-free template, `apply_template` yields exactly the template with the
marker substrings replaced by the injected values and every other character
unchanged; and on the structural fallback path, `_inject_steps` replaces only
the value region of the first matching `let steps = [...]` assignment,
keeping all surrounding text verbatim. -/
theorem claim_C3 :
    (∀ (t0 t1 t2 t3 t4 t5 t6 t7 t8 t9 sj : List Char) (a1 a2 a3 a4 a5 a6 a7 a8 : String),
      braceFreeL t0 = true → braceFreeL t1 = true → braceFreeL t2 = true →
      braceFreeL t3 = true → braceFreeL t4 = true → braceFreeL t5 = true →
      braceFreeL t6 = true → braceFreeL t7 = true → braceFreeL t8 = true →
      braceFreeL t9 = true → braceFreeL sj = true →
      braceFreeL a1.data = true → braceFreeL a2.data = true →
      braceFreeL a3.data = true → braceFreeL a4.data = true →
      braceFreeL a5.data = true → braceFreeL a6.data = true →
      braceFreeL a7.data = true → braceFreeL a8.data = true →
      apply_template_v4f
        (t0 ++ markerL "STEPS_JSON" ++ t1 ++ markerL "APP_TITLE" ++ t2 ++
         markerL "APP_TITLE_VISIBLE" ++ t3 ++ markerL "META_REPO" ++ t4 ++
         markerL "META_ENTITY" ++ t5 ++ markerL "META_SOP_DEFAULT" ++ t6 ++
         markerL "META_IMG_FOLDER_DEF" ++ t7 ++ markerL "META_WEBROOT" ++ t8 ++
         markerL "RUN_LABEL_DEFAULT" ++ t9) sj
        [("APP_TITLE", a1), ("APP_TITLE_VISIBLE", a2), ("META_REPO", a3),
         ("META_ENTITY", a4), ("META_SOP_DEFAULT", a5), ("META_IMG_FOLDER_DEF", a6),
         ("META_WEBROOT", a7), ("RUN_LABEL_DEFAULT", a8)] =
      .ok (t0 ++ sj ++ t1 ++ a1.data ++ t2 ++ a2.data ++ t3 ++ a3.data ++ t4 ++
           a4.data ++ t5 ++ a5.data ++ t6 ++ a6.data ++ t7 ++ a7.data ++ t8 ++
           a8.data ++ t9)) ∧
    (∀ a w1 w2 w3 mid w4 rest j : List Char,
      containsSub (a ++ ('l' :: 'e' :: 't' ::
          (w1 ++ 's' :: 't' :: 'e' :: 'p' :: 's' ::
            (w2 ++ '=' :: (w3 ++ '[' :: (mid ++ ']' :: (w4 ++ ';' :: rest)))))))
        (markerL "STEPS_JSON") = false →
      w1 ≠ [] → (∀ c ∈ w1, isPyWs c = true) →
      (∀ c ∈ w2, isPyWs c = true) → (∀ c ∈ w3, isPyWs c = true) →
      (∀ c ∈ w4, isPyWs c = true) → ']' ∉ mid →
      (∀ i, i < a.length →
        stepsAttemptAt ((a ++ ('l' :: 'e' :: 't' ::
          (w1 ++ 's' :: 't' :: 'e' :: 'p' :: 's' ::
            (w2 ++ '=' :: (w3 ++ '[' :: (mid ++ ']' :: (w4 ++ ';' :: rest))))))).drop i)
          = false) →
      '\\' ∉ j → (∀ c ∈ j.take 1, isAsciiDigit c = false) →
      injectSteps_v4f (a ++ ('l' :: 'e' :: 't' ::
          (w1 ++ 's' :: 't' :: 'e' :: 'p' :: 's' ::
            (w2 ++ '=' :: (w3 ++ '[' :: (mid ++ ']' :: (w4 ++ ';' :: rest))))))) j =
        .ok (a ++ ('l' :: 'e' :: 't' :: (w1 ++ "steps".data ++ w2 ++ '=' :: w3)) ++
          j ++ (w4 ++ ';' :: rest))) := by
  constructor
  · intro t0 t1 t2 t3 t4 t5 t6 t7 t8 t9 sj a1 a2 a3 a4 a5 a6 a7 a8
    intro ht0 ht1 ht2 ht3 ht4 ht5 ht6 ht7 ht8 ht9 hsj ha1 ha2 ha3 ha4 ha5 ha6 ha7 ha8
    have hwf0 : ([Blk.txt t0, Blk.hole "STEPS_JSON", Blk.txt t1, Blk.hole "APP_TITLE",
        Blk.txt t2, Blk.hole "APP_TITLE_VISIBLE", Blk.txt t3, Blk.hole "META_REPO",
        Blk.txt t4, Blk.hole "META_ENTITY", Blk.txt t5, Blk.hole "META_SOP_DEFAULT",
        Blk.txt t6, Blk.hole "META_IMG_FOLDER_DEF", Blk.txt t7, Blk.hole "META_WEBROOT",
        Blk.txt t8, Blk.hole "RUN_LABEL_DEFAULT", Blk.txt t9]).all blkWf = true := by
      simp only [List.all_cons, List.all_nil, Bool.and_eq_true]
      exact ⟨ht0, by decide, ht1, by decide, ht2, by decide, ht3, by decide,
        ht4, by decide, ht5, by decide, ht6, by decide, ht7, by decide,
        ht8, by decide, ht9, trivial⟩
    have hwf1 : ([Blk.txt t0, Blk.txt sj, Blk.txt t1, Blk.hole "APP_TITLE",
        Blk.txt t2, Blk.hole "APP_TITLE_VISIBLE", Blk.txt t3, Blk.hole "META_REPO",
        Blk.txt t4, Blk.hole "META_ENTITY", Blk.txt t5, Blk.hole "META_SOP_DEFAULT",
        Blk.txt t6, Blk.hole "META_IMG_FOLDER_DEF", Blk.txt t7, Blk.hole "META_WEBROOT",
        Blk.txt t8, Blk.hole "RUN_LABEL_DEFAULT", Blk.txt t9]).all blkWf = true := by
      simp only [List.all_cons, List.all_nil, Bool.and_eq_true]
      exact ⟨ht0, hsj, ht1, by decide, ht2, by decide, ht3, by decide,
        ht4, by decide, ht5, by decide, ht6, by decide, ht7, by decide,
        ht8, by decide, ht9, trivial⟩
    have hwf2 : ([Blk.txt t0, Blk.txt sj, Blk.txt t1, Blk.txt a1.data,
        Blk.txt t2, Blk.hole "APP_TITLE_VISIBLE", Blk.txt t3, Blk.hole "META_REPO",
        Blk.txt t4, Blk.hole "META_ENTITY", Blk.txt t5, Blk.hole "META_SOP_DEFAULT",
        Blk.txt t6, Blk.hole "META_IMG_FOLDER_DEF", Blk.txt t7, Blk.hole "META_WEBROOT",
        Blk.txt t8, Blk.hole "RUN_LABEL_DEFAULT", Blk.txt t9]).all blkWf = true := by
      simp only [List.all_cons, List.all_nil, Bool.and_eq_true]
      exact ⟨ht0, hsj, ht1, ha1, ht2, by decide, ht3, by decide,
        ht4, by decide, ht5, by decide, ht6, by decide, ht7, by decide,
        ht8, by decide, ht9, trivial⟩
    have hwf3 : ([Blk.txt t0, Blk.txt sj, Blk.txt t1, Blk.txt a1.data,
        Blk.txt t2, Blk.txt a2.data, Blk.txt t3, Blk.hole "META_REPO",
        Blk.txt t4, Blk.hole "META_ENTITY", Blk.txt t5, Blk.hole "META_SOP_DEFAULT",
        Blk.txt t6, Blk.hole "META_IMG_FOLDER_DEF", Blk.txt t7, Blk.hole "META_WEBROOT",
        Blk.txt t8, Blk.hole "RUN_LABEL_DEFAULT", Blk.txt t9]).all blkWf = true := by
      simp only [List.all_cons, List.all_nil, Bool.and_eq_true]
      exact ⟨ht0, hsj, ht1, ha1, ht2, ha2, ht3, by decide,
        ht4, by decide, ht5, by decide, ht6, by decide, ht7, by decide,
        ht8, by decide, ht9, trivial⟩
    have e1 : injectSteps_v4f (renderB [Blk.txt t0, Blk.hole "STEPS_JSON", Blk.txt t1,
        Blk.hole "APP_TITLE", Blk.txt t2, Blk.hole "APP_TITLE_VISIBLE", Blk.txt t3,
        Blk.hole "META_REPO", Blk.txt t4, Blk.hole "META_ENTITY", Blk.txt t5,
        Blk.hole "META_SOP_DEFAULT", Blk.txt t6, Blk.hole "META_IMG_FOLDER_DEF",
        Blk.txt t7, Blk.hole "META_WEBROOT", Blk.txt t8, Blk.hole "RUN_LABEL_DEFAULT",
        Blk.txt t9]) sj =
        .ok (renderB [Blk.txt t0, Blk.txt sj, Blk.txt t1, Blk.hole "APP_TITLE",
          Blk.txt t2, Blk.hole "APP_TITLE_VISIBLE", Blk.txt t3, Blk.hole "META_REPO",
          Blk.txt t4, Blk.hole "META_ENTITY", Blk.txt t5, Blk.hole "META_SOP_DEFAULT",
          Blk.txt t6, Blk.hole "META_IMG_FOLDER_DEF", Blk.txt t7, Blk.hole "META_WEBROOT",
          Blk.txt t8, Blk.hole "RUN_LABEL_DEFAULT", Blk.txt t9]) := by
      rw [injectSteps_v4f, if_pos (contains_renderB_pos "STEPS_JSON" _ (by simp))]
      rw [replaceAll_renderB "STEPS_JSON" sj (by decide) _ hwf0]
      rw [show ([Blk.txt t0, Blk.hole "STEPS_JSON", Blk.txt t1, Blk.hole "APP_TITLE",
          Blk.txt t2, Blk.hole "APP_TITLE_VISIBLE", Blk.txt t3, Blk.hole "META_REPO",
          Blk.txt t4, Blk.hole "META_ENTITY", Blk.txt t5, Blk.hole "META_SOP_DEFAULT",
          Blk.txt t6, Blk.hole "META_IMG_FOLDER_DEF", Blk.txt t7, Blk.hole "META_WEBROOT",
          Blk.txt t8, Blk.hole "RUN_LABEL_DEFAULT", Blk.txt t9]).map
            (holeSubst "STEPS_JSON" sj) =
        [Blk.txt t0, Blk.txt sj, Blk.txt t1, Blk.hole "APP_TITLE",
          Blk.txt t2, Blk.hole "APP_TITLE_VISIBLE", Blk.txt t3, Blk.hole "META_REPO",
          Blk.txt t4, Blk.hole "META_ENTITY", Blk.txt t5, Blk.hole "META_SOP_DEFAULT",
          Blk.txt t6, Blk.hole "META_IMG_FOLDER_DEF", Blk.txt t7, Blk.hole "META_WEBROOT",
          Blk.txt t8, Blk.hole "RUN_LABEL_DEFAULT", Blk.txt t9] from by
        simp [holeSubst]]
    have e2 : replaceOrPatchTitle (renderB [Blk.txt t0, Blk.txt sj, Blk.txt t1,
        Blk.hole "APP_TITLE", Blk.txt t2, Blk.hole "APP_TITLE_VISIBLE", Blk.txt t3,
        Blk.hole "META_REPO", Blk.txt t4, Blk.hole "META_ENTITY", Blk.txt t5,
        Blk.hole "META_SOP_DEFAULT", Blk.txt t6, Blk.hole "META_IMG_FOLDER_DEF",
        Blk.txt t7, Blk.hole "META_WEBROOT", Blk.txt t8, Blk.hole "RUN_LABEL_DEFAULT",
        Blk.txt t9]) a1.data =
        .ok (renderB [Blk.txt t0, Blk.txt sj, Blk.txt t1, Blk.txt a1.data,
          Blk.txt t2, Blk.hole "APP_TITLE_VISIBLE", Blk.txt t3, Blk.hole "META_REPO",
          Blk.txt t4, Blk.hole "META_ENTITY", Blk.txt t5, Blk.hole "META_SOP_DEFAULT",
          Blk.txt t6, Blk.hole "META_IMG_FOLDER_DEF", Blk.txt t7, Blk.hole "META_WEBROOT",
          Blk.txt t8, Blk.hole "RUN_LABEL_DEFAULT", Blk.txt t9]) := by
      rw [replaceOrPatchTitle, if_pos (contains_renderB_pos "APP_TITLE" _ (by simp))]
      rw [replaceAll_renderB "APP_TITLE" a1.data (by decide) _ hwf1]
      rw [show ([Blk.txt t0, Blk.txt sj, Blk.txt t1, Blk.hole "APP_TITLE",
          Blk.txt t2, Blk.hole "APP_TITLE_VISIBLE", Blk.txt t3, Blk.hole "META_REPO",
          Blk.txt t4, Blk.hole "META_ENTITY", Blk.txt t5, Blk.hole "META_SOP_DEFAULT",
          Blk.txt t6, Blk.hole "META_IMG_FOLDER_DEF", Blk.txt t7, Blk.hole "META_WEBROOT",
          Blk.txt t8, Blk.hole "RUN_LABEL_DEFAULT", Blk.txt t9]).map
            (holeSubst "APP_TITLE" a1.data) =
        [Blk.txt t0, Blk.txt sj, Blk.txt t1, Blk.txt a1.data,
          Blk.txt t2, Blk.hole "APP_TITLE_VISIBLE", Blk.txt t3, Blk.hole "META_REPO",
          Blk.txt t4, Blk.hole "META_ENTITY", Blk.txt t5, Blk.hole "META_SOP_DEFAULT",
          Blk.txt t6, Blk.hole "META_IMG_FOLDER_DEF", Blk.txt t7, Blk.hole "META_WEBROOT",
          Blk.txt t8, Blk.hole "RUN_LABEL_DEFAULT", Blk.txt t9] from by
        simp [holeSubst]]
    have e3 : replaceOrPatchHeaderTitle (renderB [Blk.txt t0, Blk.txt sj, Blk.txt t1,
        Blk.txt a1.data, Blk.txt t2, Blk.hole "APP_TITLE_VISIBLE", Blk.txt t3,
        Blk.hole "META_REPO", Blk.txt t4, Blk.hole "META_ENTITY", Blk.txt t5,
        Blk.hole "META_SOP_DEFAULT", Blk.txt t6, Blk.hole "META_IMG_FOLDER_DEF",
        Blk.txt t7, Blk.hole "META_WEBROOT", Blk.txt t8, Blk.hole "RUN_LABEL_DEFAULT",
        Blk.txt t9]) a2.data =
        .ok (renderB [Blk.txt t0, Blk.txt sj, Blk.txt t1, Blk.txt a1.data,
          Blk.txt t2, Blk.txt a2.data, Blk.txt t3, Blk.hole "META_REPO",
          Blk.txt t4, Blk.hole "META_ENTITY", Blk.txt t5, Blk.hole "META_SOP_DEFAULT",
          Blk.txt t6, Blk.hole "META_IMG_FOLDER_DEF", Blk.txt t7, Blk.hole "META_WEBROOT",
          Blk.txt t8, Blk.hole "RUN_LABEL_DEFAULT", Blk.txt t9]) := by
      rw [replaceOrPatchHeaderTitle,
        if_pos (contains_renderB_pos "APP_TITLE_VISIBLE" _ (by simp))]
      rw [replaceAll_renderB "APP_TITLE_VISIBLE" a2.data (by decide) _ hwf2]
      rw [show ([Blk.txt t0, Blk.txt sj, Blk.txt t1, Blk.txt a1.data,
          Blk.txt t2, Blk.hole "APP_TITLE_VISIBLE", Blk.txt t3, Blk.hole "META_REPO",
          Blk.txt t4, Blk.hole "META_ENTITY", Blk.txt t5, Blk.hole "META_SOP_DEFAULT",
          Blk.txt t6, Blk.hole "META_IMG_FOLDER_DEF", Blk.txt t7, Blk.hole "META_WEBROOT",
          Blk.txt t8, Blk.hole "RUN_LABEL_DEFAULT", Blk.txt t9]).map
            (holeSubst "APP_TITLE_VISIBLE" a2.data) =
        [Blk.txt t0, Blk.txt sj, Blk.txt t1, Blk.txt a1.data,
          Blk.txt t2, Blk.txt a2.data, Blk.txt t3, Blk.hole "META_REPO",
          Blk.txt t4, Blk.hole "META_ENTITY", Blk.txt t5, Blk.hole "META_SOP_DEFAULT",
          Blk.txt t6, Blk.hole "META_IMG_FOLDER_DEF", Blk.txt t7, Blk.hole "META_WEBROOT",
          Blk.txt t8, Blk.hole "RUN_LABEL_DEFAULT", Blk.txt t9] from by
        simp [holeSubst]]
    have hmeta : ∀ p ∈ ([("APP_TITLE", a1), ("APP_TITLE_VISIBLE", a2), ("META_REPO", a3),
        ("META_ENTITY", a4), ("META_SOP_DEFAULT", a5), ("META_IMG_FOLDER_DEF", a6),
        ("META_WEBROOT", a7), ("RUN_LABEL_DEFAULT", a8)] : List (String × String)),
        braceFreeL p.1.data = true ∧ braceFreeL p.2.data = true := by
      intro p hp
      simp only [List.mem_cons, List.not_mem_nil, or_false] at hp
      rcases hp with rfl | rfl | rfl | rfl | rfl | rfl | rfl | rfl
      · exact ⟨(by decide : braceFreeL ("APP_TITLE" : String).data = true), ha1⟩
      · exact ⟨(by decide : braceFreeL ("APP_TITLE_VISIBLE" : String).data = true), ha2⟩
      · exact ⟨(by decide : braceFreeL ("META_REPO" : String).data = true), ha3⟩
      · exact ⟨(by decide : braceFreeL ("META_ENTITY" : String).data = true), ha4⟩
      · exact ⟨(by decide : braceFreeL ("META_SOP_DEFAULT" : String).data = true), ha5⟩
      · exact ⟨(by decide : braceFreeL ("META_IMG_FOLDER_DEF" : String).data = true), ha6⟩
      · exact ⟨(by decide : braceFreeL ("META_WEBROOT" : String).data = true), ha7⟩
      · exact ⟨(by decide : braceFreeL ("RUN_LABEL_DEFAULT" : String).data = true), ha8⟩
    rw [show (t0 ++ markerL "STEPS_JSON" ++ t1 ++ markerL "APP_TITLE" ++ t2 ++
         markerL "APP_TITLE_VISIBLE" ++ t3 ++ markerL "META_REPO" ++ t4 ++
         markerL "META_ENTITY" ++ t5 ++ markerL "META_SOP_DEFAULT" ++ t6 ++
         markerL "META_IMG_FOLDER_DEF" ++ t7 ++ markerL "META_WEBROOT" ++ t8 ++
         markerL "RUN_LABEL_DEFAULT" ++ t9) =
      renderB [Blk.txt t0, Blk.hole "STEPS_JSON", Blk.txt t1, Blk.hole "APP_TITLE",
        Blk.txt t2, Blk.hole "APP_TITLE_VISIBLE", Blk.txt t3, Blk.hole "META_REPO",
        Blk.txt t4, Blk.hole "META_ENTITY", Blk.txt t5, Blk.hole "META_SOP_DEFAULT",
        Blk.txt t6, Blk.hole "META_IMG_FOLDER_DEF", Blk.txt t7, Blk.hole "META_WEBROOT",
        Blk.txt t8, Blk.hole "RUN_LABEL_DEFAULT", Blk.txt t9] from by
      simp [renderB, List.append_assoc]]
    rw [apply_template_v4f]
    rw [e1]
    simp only []
    rw [show dgetD [("APP_TITLE", a1), ("APP_TITLE_VISIBLE", a2), ("META_REPO", a3),
        ("META_ENTITY", a4), ("META_SOP_DEFAULT", a5), ("META_IMG_FOLDER_DEF", a6),
        ("META_WEBROOT", a7), ("RUN_LABEL_DEFAULT", a8)] "APP_TITLE" "Checklist" = a1 from by
      simp [dgetD, dget]]
    rw [e2]
    simp only []
    rw [show dgetD [("APP_TITLE", a1), ("APP_TITLE_VISIBLE", a2), ("META_REPO", a3),
        ("META_ENTITY", a4), ("META_SOP_DEFAULT", a5), ("META_IMG_FOLDER_DEF", a6),
        ("META_WEBROOT", a7), ("RUN_LABEL_DEFAULT", a8)] "APP_TITLE_VISIBLE" a1 = a2 from by
      simp [dgetD, dget]]
    rw [e3]
    simp only []
    rw [metaFold_renderB _ _ hwf3 hmeta]
    rw [show ([("APP_TITLE", a1), ("APP_TITLE_VISIBLE", a2), ("META_REPO", a3),
        ("META_ENTITY", a4), ("META_SOP_DEFAULT", a5), ("META_IMG_FOLDER_DEF", a6),
        ("META_WEBROOT", a7), ("RUN_LABEL_DEFAULT", a8)] : List (String × String)).foldl
        (fun l p => l.map (holeSubst p.1 p.2.data))
        [Blk.txt t0, Blk.txt sj, Blk.txt t1, Blk.txt a1.data,
          Blk.txt t2, Blk.txt a2.data, Blk.txt t3, Blk.hole "META_REPO",
          Blk.txt t4, Blk.hole "META_ENTITY", Blk.txt t5, Blk.hole "META_SOP_DEFAULT",
          Blk.txt t6, Blk.hole "META_IMG_FOLDER_DEF", Blk.txt t7, Blk.hole "META_WEBROOT",
          Blk.txt t8, Blk.hole "RUN_LABEL_DEFAULT", Blk.txt t9] =
      [Blk.txt t0, Blk.txt sj, Blk.txt t1, Blk.txt a1.data,
        Blk.txt t2, Blk.txt a2.data, Blk.txt t3, Blk.txt a3.data,
        Blk.txt t4, Blk.txt a4.data, Blk.txt t5, Blk.txt a5.data,
        Blk.txt t6, Blk.txt a6.data, Blk.txt t7, Blk.txt a7.data,
        Blk.txt t8, Blk.txt a8.data, Blk.txt t9] from by
      simp [holeSubst]]
    simp [renderB, List.append_assoc]
  · intro a w1 w2 w3 mid w4 rest j hnm hw1 h1 h2 h3 h4 hmid ha hj hjd
    exact injectFallback a w1 w2 w3 mid w4 rest j hnm hw1 h1 h2 h3 h4 hmid ha hj hjd

/-- C3 witness: a concrete brace-free template with all nine markers, and a
concrete fallback template. -/
theorem claim_C3_witness :
    apply_template_v4f
      ("A".data ++ markerL "STEPS_JSON" ++ "B".data ++ markerL "APP_TITLE" ++ "C".data ++
       markerL "APP_TITLE_VISIBLE" ++ "D".data ++ markerL "META_REPO" ++ "E".data ++
       markerL "META_ENTITY" ++ "F".data ++ markerL "META_SOP_DEFAULT" ++ "G".data ++
       markerL "META_IMG_FOLDER_DEF" ++ "H".data ++ markerL "META_WEBROOT" ++ "I".data ++
       markerL "RUN_LABEL_DEFAULT" ++ "J".data) "[1]".data
      [("APP_TITLE", "T1"), ("APP_TITLE_VISIBLE", "T2"), ("META_REPO", "T3"),
       ("META_ENTITY", "T4"), ("META_SOP_DEFAULT", "T5"), ("META_IMG_FOLDER_DEF", "T6"),
       ("META_WEBROOT", "T7"), ("RUN_LABEL_DEFAULT", "T8")] =
    .ok ("A".data ++ "[1]".data ++ "B".data ++ "T1".data ++ "C".data ++ "T2".data ++
         "D".data ++ "T3".data ++ "E".data ++ "T4".data ++ "F".data ++ "T5".data ++
         "G".data ++ "T6".data ++ "H".data ++ "T7".data ++ "I".data ++ "T8".data ++
         "J".data) :=
  claim_C3.1 "A".data "B".data "C".data "D".data "E".data "F".data "G".data "H".data
    "I".data "J".data "[1]".data "T1" "T2" "T3" "T4" "T5" "T6" "T7" "T8"
    (by decide) (by decide) (by decide) (by decide) (by decide) (by decide) (by decide)
    (by decide) (by decide) (by decide) (by decide) (by decide) (by decide) (by decide)
    (by decide) (by decide) (by decide) (by decide) (by decide)

end KyaBaat
